import Mathlib

/-!
Verification of the QuizMaster client (scoring engine, quiz session manager,
leaderboard cache) against its specification.

JavaScript numbers are IEEE-754 binary64 values; every value that occurs in
the scoring pipeline is a dyadic rational `m * 2^e`.  We embed them as the
structure `D` below, and each arithmetic operation of the source
(`+`, `-`, `*`, `/`) is the exact rational operation followed by rounding to
53 significant bits, round-to-nearest, ties-to-even — the binary64 rule for
operands in the normal range (the model ignores overflow to infinity and
subnormal truncation, which no value in the verified code paths reaches).
Numeric literals of the source (`0.1`, `0.3`, …) are embedded as the exact
value of their binary64 representation.

The rounding kernel works on natural numbers only (a fuel-bounded search for
the binade of the quotient), so that every concrete evaluation is decidable
by the kernel.
-/

set_option maxRecDepth 100000

namespace QuizMaster

/-- A dyadic rational `m * 2^e`: the value of an IEEE-754 binary64 number. -/
structure D where
  m : ℤ
  e : ℤ
  deriving DecidableEq, Repr

/-- Rational value denoted by a `D`. -/
def val (d : D) : ℚ := (d.m : ℚ) * (2 : ℚ) ^ d.e

/-- Binade search: repeatedly scale `A/B` by 2 (recorded in `e`) until
`A/B ∈ [2^52, 2^53)`; `fuel` bounds the number of steps. -/
def eFindN : ℕ → ℕ → ℕ → ℤ → (ℕ × ℕ × ℤ)
  | 0, A, B, e => (A, B, e)
  | f+1, A, B, e =>
    if A < 2^52 * B then eFindN f (2*A) B (e+1)
    else if 2^53 * B ≤ A then eFindN f A (2*B) (e-1)
    else (A, B, e)

/-- Round `A/B` to the nearest integer, ties to even. -/
def rnteDiv (A B : ℕ) : ℕ :=
  let q := A / B
  let r := A % B
  if 2*r < B then q else if B < 2*r then q + 1 else (if q % 2 = 0 then q else q + 1)

/-- Fuel for the binade search; large enough for every exponent reachable
from binary64 inputs through the modelled operations. -/
def FUEL : ℕ := 10000

/-- Round the positive rational `(A/B) * 2^eoff` to 53 significant bits
(round to nearest, ties to even). -/
def rdCore (A B : ℕ) (eoff : ℤ) : D :=
  let t := eFindN FUEL A B 0
  ⟨(rnteDiv t.1 t.2.1 : ℤ), eoff - t.2.2⟩

/-- Exact negation. -/
def dNeg (a : D) : D := ⟨-a.m, a.e⟩

/-- Round the rational `(n/d) * 2^eoff` to a binary64 value. -/
def rdQ (n d : ℤ) (eoff : ℤ) : D :=
  if n = 0 ∨ d = 0 then ⟨0, 0⟩
  else if (n < 0 ∧ 0 < d) ∨ (0 < n ∧ d < 0) then dNeg (rdCore n.natAbs d.natAbs eoff)
  else rdCore n.natAbs d.natAbs eoff

/-- Round an exact dyadic value to binary64. -/
def rdD (d : D) : D := rdQ d.m 1 d.e

/-- Exact sum of two dyadic rationals (align to the smaller exponent). -/
def dAddExact (a b : D) : D :=
  ⟨a.m * 2^((a.e - min a.e b.e).toNat) + b.m * 2^((b.e - min a.e b.e).toNat), min a.e b.e⟩

/-- Binary64 addition. -/
def jsAdd (a b : D) : D := rdD (dAddExact a b)

/-- Binary64 subtraction. -/
def jsSub (a b : D) : D := rdD (dAddExact a (dNeg b))

/-- Binary64 multiplication. -/
def jsMul (a b : D) : D := rdQ (a.m * b.m) 1 (a.e + b.e)

/-- Binary64 division. -/
def jsDiv (a b : D) : D := rdQ a.m b.m (a.e - b.e)

/-- Value comparison of two dyadic rationals, on representations. -/
def dLt (a b : D) : Prop :=
  a.m * 2^((a.e - min a.e b.e).toNat) < b.m * 2^((b.e - min a.e b.e).toNat)

/-- Value order (non-strict). -/
def dLe (a b : D) : Prop :=
  a.m * 2^((a.e - min a.e b.e).toNat) ≤ b.m * 2^((b.e - min a.e b.e).toNat)

/-- Value equality of two dyadic rationals, on representations. -/
def dEqv (a b : D) : Prop :=
  a.m * 2^((a.e - min a.e b.e).toNat) = b.m * 2^((b.e - min a.e b.e).toNat)

instance (a b : D) : Decidable (dLt a b) := by unfold dLt; infer_instance
instance (a b : D) : Decidable (dLe a b) := by unfold dLe; infer_instance
instance (a b : D) : Decidable (dEqv a b) := by unfold dEqv; infer_instance

/-- The integer `n` as a binary64 value. -/
def intToD (n : ℤ) : D := ⟨n, 0⟩

/-- `Math.floor` on a binary64 value (exact; `Int` division in Lean rounds
toward `-∞` for a positive divisor). -/
def jsFloor (d : D) : ℤ :=
  if 0 ≤ d.e then d.m * 2^d.e.toNat else d.m / ((2^((-d.e).toNat) : ℕ) : ℤ)

/-- `Math.round` on a binary64 value: nearest integer, ties toward `+∞`,
i.e. `⌊x + 1/2⌋`. -/
def jsRound (d : D) : ℤ := jsFloor (dAddExact d ⟨1, -1⟩)

/-- `Math.max` on binary64 values. -/
def jsMax (a b : D) : D := if dLt a b then b else a

/-- JavaScript truthiness of a number (`0` is falsy). -/
def dTruthy (d : D) : Bool := d.m ≠ 0

theorem val_intToD (n : ℤ) : val (intToD n) = (n : ℚ) := by
  simp [val, intToD]

theorem val_dNeg (a : D) : val (dNeg a) = -val a := by
  simp [val, dNeg]

theorem two_zpow_sub_min_left (a b : ℤ) :
    (2:ℚ) ^ ((a - min a b).toNat) * (2:ℚ) ^ (min a b) = (2:ℚ) ^ a := by
  have h : ((a - min a b).toNat : ℤ) = a - min a b := by
    have := min_le_left a b
    omega
  calc (2:ℚ) ^ ((a - min a b).toNat) * (2:ℚ) ^ (min a b)
      = (2:ℚ) ^ (((a - min a b).toNat : ℤ)) * (2:ℚ) ^ (min a b) := by
        rw [zpow_natCast]
    _ = (2:ℚ) ^ (a - min a b) * (2:ℚ) ^ (min a b) := by rw [h]
    _ = (2:ℚ) ^ (a - min a b + min a b) := by
        rw [← zpow_add₀ (by norm_num : (2:ℚ) ≠ 0)]
    _ = (2:ℚ) ^ a := by ring_nf

theorem val_dAddExact (a b : D) : val (dAddExact a b) = val a + val b := by
  unfold val dAddExact
  push_cast
  rw [add_mul]
  congr 1
  · rw [mul_assoc, two_zpow_sub_min_left a.e b.e]
  · rw [mul_assoc, min_comm a.e b.e, two_zpow_sub_min_left b.e a.e]

theorem dLt_iff_val (a b : D) : dLt a b ↔ val a < val b := by
  unfold dLt val
  rw [show a.m * 2 ^ (a.e - min a.e b.e).toNat < b.m * 2 ^ (b.e - min a.e b.e).toNat ↔
      ((a.m * 2 ^ (a.e - min a.e b.e).toNat : ℤ) : ℚ) <
      ((b.m * 2 ^ (b.e - min a.e b.e).toNat : ℤ) : ℚ) from (Int.cast_lt).symm]
  push_cast
  constructor
  · intro h
    have h2 : (0:ℚ) < (2:ℚ) ^ (min a.e b.e) := by positivity
    have h3 := mul_lt_mul_of_pos_right h h2
    have hb : (2:ℚ) ^ ((b.e - min a.e b.e).toNat) * (2:ℚ) ^ (min a.e b.e) = (2:ℚ) ^ b.e := by
      rw [min_comm a.e b.e]; exact two_zpow_sub_min_left b.e a.e
    rwa [mul_assoc, mul_assoc, two_zpow_sub_min_left a.e b.e, hb] at h3
  · intro h
    have h2 : (0:ℚ) < (2:ℚ) ^ (-(min a.e b.e)) := by positivity
    have := mul_lt_mul_of_pos_right h h2
    rw [mul_assoc, mul_assoc] at this
    rw [← zpow_add₀ (by norm_num : (2:ℚ) ≠ 0), ← zpow_add₀ (by norm_num : (2:ℚ) ≠ 0)] at this
    have ha : ((a.e - min a.e b.e).toNat : ℤ) = a.e - min a.e b.e := by
      have := min_le_left a.e b.e; omega
    have hb : ((b.e - min a.e b.e).toNat : ℤ) = b.e - min a.e b.e := by
      have := min_le_right a.e b.e; omega
    calc (a.m : ℚ) * 2 ^ (a.e - min a.e b.e).toNat
        = (a.m : ℚ) * 2 ^ (a.e + -(min a.e b.e)) := by
          rw [← zpow_natCast (2:ℚ) ((a.e - min a.e b.e).toNat), ha]; ring_nf
      _ < (b.m : ℚ) * 2 ^ (b.e + -(min a.e b.e)) := this
      _ = (b.m : ℚ) * 2 ^ (b.e - min a.e b.e).toNat := by
          rw [← zpow_natCast (2:ℚ) ((b.e - min a.e b.e).toNat), hb]; ring_nf

theorem dLe_iff_val (a b : D) : dLe a b ↔ val a ≤ val b := by
  have h1 := dLt_iff_val b a
  unfold dLt at h1
  unfold dLe
  rw [min_comm b.e a.e] at h1
  constructor
  · intro h
    by_contra hc
    push_neg at hc
    exact absurd (h1.mpr hc) (not_lt.mpr h)
  · intro h
    exact not_lt.mp (fun hc => absurd (h1.mp hc) (not_lt.mpr h))

theorem dEqv_iff_val (a b : D) : dEqv a b ↔ val a = val b := by
  have h1 := dLe_iff_val a b
  have h2 := dLe_iff_val b a
  unfold dLe at h1 h2
  rw [min_comm b.e a.e] at h2
  unfold dEqv
  constructor
  · intro h
    exact le_antisymm (h1.mp (le_of_eq h)) (h2.mp (ge_of_eq h))
  · intro h
    exact le_antisymm (h1.mpr (le_of_eq h)) (h2.mpr (ge_of_eq h))

/-- Value of an `eFindN` state: `(A/B) * 2^(-e)` (invariant of the search). -/
def valE (t : ℕ × ℕ × ℤ) : ℚ := (t.1 : ℚ) / (t.2.1 : ℚ) * (2:ℚ) ^ (-t.2.2)

/-- The search has found the binade: `A/B ∈ [2^52, 2^53)`. -/
def Landed (t : ℕ × ℕ × ℤ) : Prop := 2^52 * t.2.1 ≤ t.1 ∧ t.1 < 2^53 * t.2.1

theorem eFindN_valE : ∀ (f A B : ℕ) (e : ℤ), 0 < B →
    valE (eFindN f A B e) = valE (A, B, e) := by
  intro f
  induction f with
  | zero => intro A B e _; rfl
  | succ f ih =>
    intro A B e hB
    rw [eFindN]
    by_cases h1 : A < 2^52 * B
    · rw [if_pos h1, ih _ _ _ hB]
      unfold valE
      push_cast
      rw [neg_add, zpow_add₀ (by norm_num : (2:ℚ) ≠ 0)]
      ring
    · rw [if_neg h1]
      by_cases h2 : 2^53 * B ≤ A
      · rw [if_pos h2, ih _ _ _ (by omega)]
        unfold valE
        push_cast
        rw [neg_sub, sub_eq_add_neg, add_comm, zpow_add₀ (by norm_num : (2:ℚ) ≠ 0)]
        field_simp
        ring
      · rw [if_neg h2]

theorem eFindN_B_pos : ∀ (f A B : ℕ) (e : ℤ), 0 < B → 0 < (eFindN f A B e).2.1 := by
  intro f
  induction f with
  | zero => intro A B e hB; exact hB
  | succ f ih =>
    intro A B e hB
    rw [eFindN]
    by_cases h1 : A < 2^52 * B
    · rw [if_pos h1]; exact ih _ _ _ hB
    · rw [if_neg h1]
      by_cases h2 : 2^53 * B ≤ A
      · rw [if_pos h2]; exact ih _ _ _ (by omega)
      · rw [if_neg h2]; exact hB

theorem eFindN_A_pos : ∀ (f A B : ℕ) (e : ℤ), 0 < A → 0 < (eFindN f A B e).1 := by
  intro f
  induction f with
  | zero => intro A B e hA; exact hA
  | succ f ih =>
    intro A B e hA
    rw [eFindN]
    by_cases h1 : A < 2^52 * B
    · rw [if_pos h1]; exact ih _ _ _ (by omega)
    · rw [if_neg h1]
      by_cases h2 : 2^53 * B ≤ A
      · rw [if_pos h2]; exact ih _ _ _ hA
      · rw [if_neg h2]; exact hA

theorem eFindN_land_up : ∀ (f A B : ℕ) (e : ℤ), 0 < A → 0 < B →
    A < 2^53 * B → 2^52 * B ≤ A * 2^f → Landed (eFindN f A B e) := by
  intro f
  induction f with
  | zero =>
    intro A B e _ _ hlt hge
    simp only [pow_zero, mul_one] at hge
    exact ⟨hge, hlt⟩
  | succ f ih =>
    intro A B e hA hB hlt hge
    rw [eFindN]
    by_cases h1 : A < 2^52 * B
    · rw [if_pos h1]
      refine ih _ _ _ (by omega) hB (by omega) ?_
      have : A * 2^(f+1) = (2*A) * 2^f := by ring
      omega
    · rw [if_neg h1, if_neg (by omega)]
      exact show 2^52 * B ≤ A ∧ A < 2^53 * B from ⟨by omega, hlt⟩

theorem eFindN_land_down : ∀ (f A B : ℕ) (e : ℤ), 0 < B →
    2^52 * B ≤ A → A < 2^53 * B * 2^f → Landed (eFindN f A B e) := by
  intro f
  induction f with
  | zero =>
    intro A B e _ hge hlt
    simp only [pow_zero, mul_one] at hlt
    exact ⟨hge, hlt⟩
  | succ f ih =>
    intro A B e hB hge hlt
    rw [eFindN]
    rw [if_neg (by omega)]
    by_cases h2 : 2^53 * B ≤ A
    · rw [if_pos h2]
      refine ih _ _ _ (by omega) (by omega) ?_
      have : 2^53 * B * 2^(f+1) = 2^53 * (2*B) * 2^f := by ring
      omega
    · rw [if_neg h2]
      exact show 2^52 * B ≤ A ∧ A < 2^53 * B from ⟨hge, by omega⟩

theorem eFindN_landed (A B : ℕ) (e : ℤ) (hA : 0 < A) (hB : 0 < B)
    (h1 : A ≤ 2^9000 * B) (h2 : B ≤ 2^9000 * A) : Landed (eFindN FUEL A B e) := by
  by_cases hc : A < 2^53 * B
  · refine eFindN_land_up FUEL A B e hA hB hc ?_
    calc 2^52 * B ≤ 2^52 * (2^9000 * A) := by
          exact Nat.mul_le_mul_left _ h2
      _ = A * 2^9052 := by ring
      _ ≤ A * 2^FUEL := by
          refine Nat.mul_le_mul_left _ ?_
          exact Nat.pow_le_pow_right (by norm_num) (by norm_num [FUEL])
  · refine eFindN_land_down FUEL A B e hB (by omega) ?_
    calc A ≤ 2^9000 * B := h1
      _ < 2^53 * B * 2^FUEL := by
          have hpow : (2:ℕ)^9000 < 2^53 * 2^FUEL := by
            rw [← pow_add]
            exact Nat.pow_lt_pow_right (by norm_num) (by norm_num [FUEL])
          calc 2^9000 * B < (2^53 * 2^FUEL) * B := by
                exact (Nat.mul_lt_mul_right hB).mpr hpow
            _ = 2^53 * B * 2^FUEL := by ring

theorem eFindN_up_only : ∀ (f A B : ℕ) (e : ℤ), A < 2^53 * B →
    ∃ k : ℕ, eFindN f A B e = (A * 2^k, B, e + k) := by
  intro f
  induction f with
  | zero => intro A B e _; exact ⟨0, by simp [eFindN]⟩
  | succ f ih =>
    intro A B e hlt
    rw [eFindN]
    by_cases h1 : A < 2^52 * B
    · rw [if_pos h1]
      obtain ⟨k, hk⟩ := ih (2*A) B (e+1) (by omega)
      refine ⟨k+1, ?_⟩
      rw [hk]
      simp only [Prod.mk.injEq]
      refine ⟨by ring, by trivial, by push_cast; ring⟩
    · rw [if_neg h1, if_neg (by omega)]
      exact ⟨0, by simp⟩

theorem eFindN_down_only : ∀ (f A B : ℕ) (e : ℤ), 0 < B → 2^52 * B ≤ A →
    ∃ k : ℕ, eFindN f A B e = (A, B * 2^k, e - k) ∧ 2^52 * (B * 2^k) ≤ A := by
  intro f
  induction f with
  | zero => intro A B e _ hge; exact ⟨0, by simp [eFindN], by simpa using hge⟩
  | succ f ih =>
    intro A B e hB hge
    rw [eFindN]
    rw [if_neg (by omega)]
    by_cases h2 : 2^53 * B ≤ A
    · rw [if_pos h2]
      obtain ⟨k, hk, hk2⟩ := ih A (2*B) (e-1) (by omega) (by omega)
      refine ⟨k+1, ?_, ?_⟩
      · rw [hk]
        simp only [Prod.mk.injEq]
        refine ⟨by trivial, by ring, by push_cast; ring⟩
      · calc 2^52 * (B * 2^(k+1)) = 2^52 * (2 * B * 2^k) := by ring
          _ ≤ A := hk2
    · rw [if_neg h2]
      exact ⟨0, by simp, by simpa using hge⟩

theorem rnteDiv_exact (A B : ℕ) (hB : 0 < B) (hdvd : B ∣ A) : rnteDiv A B = A / B := by
  unfold rnteDiv
  obtain ⟨c, rfl⟩ := hdvd
  simp [Nat.mul_mod_right, hB]

theorem rnteDiv_err (A B : ℕ) (hB : 0 < B) :
    |((rnteDiv A B : ℚ)) - (A : ℚ) / B| ≤ 1/2 := by
  have hBQ : (0:ℚ) < (B:ℚ) := by exact_mod_cast hB
  have hA : A = B * (A / B) + A % B := (Nat.div_add_mod A B).symm
  have hcast : (A:ℚ) = ((A/B : ℕ) : ℚ) * B + ((A % B : ℕ) : ℚ) := by
    have := congrArg (Nat.cast : ℕ → ℚ) hA
    push_cast at this
    linarith
  have hrw : (A:ℚ)/B = (A/B : ℕ) + (A % B : ℕ)/B := by
    rw [hcast, add_div, mul_div_cancel_right₀ _ (ne_of_gt hBQ)]
  have hmod : ((A % B : ℕ) : ℚ) / B < 1 := by
    rw [div_lt_one hBQ]
    exact_mod_cast Nat.mod_lt A hB
  have hmod0 : (0:ℚ) ≤ ((A % B : ℕ) : ℚ) / B := by positivity
  unfold rnteDiv
  by_cases h1 : 2 * (A % B) < B
  · rw [if_pos h1]
    have : ((A % B : ℕ) : ℚ) / B < 1/2 := by
      rw [div_lt_div_iff hBQ (by norm_num)]
      push_cast
      exact_mod_cast by
        have : ((2 * (A % B) : ℕ) : ℚ) < (B : ℚ) := by exact_mod_cast h1
        push_cast at this
        linarith
    rw [hrw, abs_sub_comm]
    rw [abs_of_nonneg (by linarith)]
    linarith
  · rw [if_neg h1]
    have hge : ((A % B : ℕ) : ℚ) / B ≥ 1/2 := by
      rw [ge_iff_le, div_le_div_iff (by norm_num) hBQ]
      have : (B : ℚ) ≤ ((2 * (A % B) : ℕ) : ℚ) := by exact_mod_cast Nat.not_lt.mp h1
      push_cast at this
      linarith
    by_cases h2 : B < 2 * (A % B)
    · rw [if_pos h2]
      push_cast
      rw [hrw, abs_of_nonneg (by linarith)]
      linarith
    · rw [if_neg h2]
      have heq : ((A % B : ℕ) : ℚ) / B = 1/2 := by
        have hBeq : (B : ℚ) = ((2 * (A % B) : ℕ) : ℚ) := by exact_mod_cast by omega
        push_cast at hBeq
        rw [div_eq_div_iff (ne_of_gt hBQ) (by norm_num : (2:ℚ) ≠ 0)]
        linarith
      by_cases h3 : A / B % 2 = 0
      · rw [if_pos h3, hrw, heq, abs_sub_comm, abs_of_nonneg (by norm_num)]
        norm_num
      · rw [if_neg h3]
        push_cast
        rw [hrw, heq, abs_of_nonneg (by norm_num)]
        norm_num

theorem rnteDiv_landed_lb (A B : ℕ) (hB : 0 < B) (h : 2^52 * B ≤ A) :
    2^52 ≤ rnteDiv A B := by
  have := rnteDiv_err A B hB
  have hBQ : (0:ℚ) < (B:ℚ) := by exact_mod_cast hB
  have hq : (2:ℚ)^52 ≤ (A:ℚ)/B := by
    rw [le_div_iff hBQ]
    exact_mod_cast h
  have h1 : (A:ℚ)/B - 1/2 ≤ (rnteDiv A B : ℚ) := by
    have := abs_sub_le_iff.mp this
    linarith [this.2]
  have h2 : (2:ℚ)^52 - 1/2 ≤ (rnteDiv A B : ℚ) := by linarith
  by_contra hc
  push_neg at hc
  have : (rnteDiv A B : ℚ) ≤ 2^52 - 1 := by
    exact_mod_cast by
      have : rnteDiv A B + 1 ≤ 2^52 := hc
      push_cast
      have hcast : ((rnteDiv A B : ℕ) : ℚ) + 1 ≤ ((2^52 : ℕ) : ℚ) := by exact_mod_cast this
      push_cast at hcast
      linarith
  linarith

theorem rnteDiv_landed_ub (A B : ℕ) (hB : 0 < B) (h : A < 2^53 * B) :
    rnteDiv A B ≤ 2^53 := by
  have := rnteDiv_err A B hB
  have hBQ : (0:ℚ) < (B:ℚ) := by exact_mod_cast hB
  have hq : (A:ℚ)/B < (2:ℚ)^53 := by
    rw [div_lt_iff hBQ]
    exact_mod_cast h
  have h1 : (rnteDiv A B : ℚ) ≤ (A:ℚ)/B + 1/2 := by
    have := abs_sub_le_iff.mp this
    linarith [this.1]
  by_contra hc
  push_neg at hc
  have : (2:ℚ)^53 + 1 ≤ (rnteDiv A B : ℚ) := by
    exact_mod_cast by
      have : 2^53 + 1 ≤ rnteDiv A B := hc
      have hcast : ((2^53 + 1 : ℕ) : ℚ) ≤ ((rnteDiv A B : ℕ) : ℚ) := by exact_mod_cast this
      push_cast at hcast
      push_cast
      linarith
  linarith

theorem rdQ_zero_left (d eoff : ℤ) : rdQ 0 d eoff = ⟨0, 0⟩ := by
  simp [rdQ]

theorem dNeg_dNeg (a : D) : dNeg (dNeg a) = a := by
  simp [dNeg]

theorem rdQ_neg_left (n d eoff : ℤ) (hd : 0 < d) :
    rdQ (-n) d eoff = dNeg (rdQ n d eoff) := by
  rcases lt_trichotomy n 0 with hn | hn | hn
  · rw [rdQ, rdQ, if_neg (show ¬(-n = 0 ∨ d = 0) by omega),
      if_neg (show ¬(n = 0 ∨ d = 0) by omega),
      if_neg (show ¬((-n < 0 ∧ 0 < d) ∨ (0 < -n ∧ d < 0)) by omega),
      if_pos (show (n < 0 ∧ 0 < d) ∨ (0 < n ∧ d < 0) from Or.inl ⟨hn, hd⟩)]
    rw [dNeg_dNeg, Int.natAbs_neg]
  · subst hn
    simp [rdQ, dNeg]
  · rw [rdQ, rdQ, if_neg (show ¬(-n = 0 ∨ d = 0) by omega),
      if_neg (show ¬(n = 0 ∨ d = 0) by omega),
      if_pos (show (-n < 0 ∧ 0 < d) ∨ (0 < -n ∧ d < 0) from Or.inl ⟨by omega, hd⟩),
      if_neg (show ¬((n < 0 ∧ 0 < d) ∨ (0 < n ∧ d < 0)) by omega)]
    rw [Int.natAbs_neg]

theorem rdCore_m_nonneg (A B : ℕ) (eoff : ℤ) : 0 ≤ (rdCore A B eoff).m :=
  Int.natCast_nonneg _

theorem rdQ_m_nonneg (n d eoff : ℤ) (hn : 0 ≤ n) (hd : 0 ≤ d) : 0 ≤ (rdQ n d eoff).m := by
  unfold rdQ
  by_cases h0 : n = 0 ∨ d = 0
  · rw [if_pos h0]
  · rw [if_neg h0, if_neg (show ¬((n < 0 ∧ 0 < d) ∨ (0 < n ∧ d < 0)) by omega)]
    exact rdCore_m_nonneg _ _ _

theorem rdQ_m_nonpos (n d eoff : ℤ) (hn : n ≤ 0) (hd : 0 ≤ d) : (rdQ n d eoff).m ≤ 0 := by
  have h : rdQ n d eoff = rdQ (-(-n)) d eoff := by rw [neg_neg]
  by_cases h0 : d = 0
  · simp [rdQ, h0]
  · rw [h, rdQ_neg_left _ _ _ (by omega)]
    have := rdQ_m_nonneg (-n) d eoff (by omega) hd
    simp only [dNeg]
    omega

theorem val_m_nonneg (d : D) : 0 ≤ d.m ↔ 0 ≤ val d := by
  unfold val
  constructor
  · intro h; positivity
  · intro h
    by_contra hc
    push_neg at hc
    have h1 : (d.m : ℚ) < 0 := by exact_mod_cast hc
    have h2 : (0:ℚ) < (2:ℚ) ^ d.e := by positivity
    nlinarith

theorem val_m_nonpos (d : D) : d.m ≤ 0 ↔ val d ≤ 0 := by
  have h := val_m_nonneg (dNeg d)
  rw [val_dNeg] at h
  unfold dNeg at h
  simp only at h
  constructor
  · intro hm
    have := h.mp (by omega)
    linarith
  · intro hv
    have := h.mpr (by linarith)
    omega

theorem val_jsMax (a b : D) : val (jsMax a b) = max (val a) (val b) := by
  unfold jsMax
  by_cases h : dLt a b
  · rw [if_pos h, max_eq_right (le_of_lt ((dLt_iff_val a b).mp h))]
  · rw [if_neg h, max_eq_left (le_of_not_lt (fun hc => h ((dLt_iff_val a b).mpr hc)))]

theorem val_rdCore (A B : ℕ) (eoff : ℤ) (hB : 0 < B) :
    val (rdCore A B eoff) =
      (rnteDiv (eFindN FUEL A B 0).1 (eFindN FUEL A B 0).2.1 : ℚ) *
        (2:ℚ) ^ (eoff - (eFindN FUEL A B 0).2.2) := by
  rfl

theorem eFindN_value (A B : ℕ) (hB : 0 < B) :
    ((eFindN FUEL A B 0).1 : ℚ) / ((eFindN FUEL A B 0).2.1 : ℚ) *
      (2:ℚ) ^ (-(eFindN FUEL A B 0).2.2) = (A : ℚ) / B := by
  have h := eFindN_valE FUEL A B 0 hB
  unfold valE at h
  simpa using h

theorem val_rdCore_of_dvd (A B : ℕ) (eoff : ℤ) (hA : 0 < A) (hB : 0 < B)
    (hdvd : (eFindN FUEL A B 0).2.1 ∣ (eFindN FUEL A B 0).1) :
    val (rdCore A B eoff) = (A : ℚ) / B * (2:ℚ) ^ eoff := by
  have hB' := eFindN_B_pos FUEL A B 0 hB
  rw [val_rdCore A B eoff hB, rnteDiv_exact _ _ hB' hdvd]
  have hcast : (((eFindN FUEL A B 0).1 / (eFindN FUEL A B 0).2.1 : ℕ) : ℚ) =
      ((eFindN FUEL A B 0).1 : ℚ) / ((eFindN FUEL A B 0).2.1 : ℚ) :=
    Nat.cast_div hdvd (Nat.cast_ne_zero.mpr (by omega))
  rw [hcast]
  rw [sub_eq_add_neg, zpow_add₀ (by norm_num : (2:ℚ) ≠ 0)]
  rw [show ((eFindN FUEL A B 0).1 : ℚ) / ((eFindN FUEL A B 0).2.1 : ℚ) *
      ((2:ℚ) ^ eoff * (2:ℚ) ^ (-(eFindN FUEL A B 0).2.2)) =
      ((eFindN FUEL A B 0).1 : ℚ) / ((eFindN FUEL A B 0).2.1 : ℚ) *
      (2:ℚ) ^ (-(eFindN FUEL A B 0).2.2) * (2:ℚ) ^ eoff from by ring]
  rw [eFindN_value A B hB]

theorem rdQ_exact_pos (n : ℤ) (eoff : ℤ) (m' : ℕ) (j : ℕ)
    (hn : n = (m' : ℤ) * 2^j) (hm : m' ≤ 2^53) (hpos : 0 < n) :
    val (rdQ n 1 eoff) = (n : ℚ) * (2:ℚ) ^ eoff := by
  have hm0 : 0 < m' := by
    rcases Nat.eq_zero_or_pos m' with h | h
    · subst h; simp at hn; omega
    · exact h
  have hnat : n.natAbs = m' * 2^j := by
    have h1 : ((n.natAbs : ℤ)) = n := Int.natAbs_of_nonneg (by omega)
    have h2 : ((n.natAbs : ℤ)) = (m' : ℤ) * 2^j := h1.trans hn
    exact_mod_cast h2
  rw [rdQ, if_neg (show ¬(n = 0 ∨ (1:ℤ) = 0) by omega),
    if_neg (show ¬((n < 0 ∧ (0:ℤ) < 1) ∨ (0 < n ∧ (1:ℤ) < 0)) by omega)]
  have hA : 0 < n.natAbs := by omega
  have hdvd : (eFindN FUEL n.natAbs (1:ℤ).natAbs 0).2.1 ∣ (eFindN FUEL n.natAbs (1:ℤ).natAbs 0).1 := by
    show (eFindN FUEL n.natAbs 1 0).2.1 ∣ (eFindN FUEL n.natAbs 1 0).1
    by_cases hlt : n.natAbs < 2^53 * 1
    · obtain ⟨k, hk⟩ := eFindN_up_only FUEL n.natAbs 1 0 hlt
      rw [hk]
      exact one_dvd _
    · obtain ⟨k, hk, hk2⟩ := eFindN_down_only FUEL n.natAbs 1 0 (by omega) (by omega)
      rw [hk]
      show 1 * 2^k ∣ n.natAbs
      rw [one_mul, hnat]
      rw [one_mul] at hk2
      rw [hnat] at hk2
      have hkj1 : k ≤ j + 1 := by
        by_contra hc
        push_neg at hc
        have h2 : (2:ℕ)^(52 + k) ≤ m' * 2^j := by rw [pow_add]; exact hk2
        have h3 : m' * 2^j ≤ 2^(53 + j) := by
          rw [pow_add]
          exact Nat.mul_le_mul_right _ hm
        have h5 : 52 + k ≤ 53 + j :=
          (Nat.pow_le_pow_iff_right (by norm_num : 1 < 2)).mp (le_trans h2 h3)
        omega
      by_cases hkj : k ≤ j
      · exact (pow_dvd_pow 2 hkj).mul_left m'
      · have hke : k = j + 1 := by omega
        have hm' : 2^53 ≤ m' := by
          subst hke
          have h2 : (2:ℕ)^(53 + j) ≤ m' * 2^j := by
            calc (2:ℕ)^(53 + j) = 2^52 * 2^(j+1) := by rw [← pow_add]; congr 1; omega
              _ ≤ m' * 2^j := hk2
          have h3 : (2:ℕ)^53 * 2^j ≤ m' * 2^j := by
            rw [← pow_add]; exact h2
          exact Nat.le_of_mul_le_mul_right h3 (Nat.pos_pow_of_pos j (by norm_num))
        have hme : m' = 2^53 := le_antisymm hm hm'
        subst hme hke
        have : (2:ℕ)^53 * 2^j = 2^(53 + j) := by rw [← pow_add]
        rw [this]
        exact pow_dvd_pow 2 (by omega)
  have hval := val_rdCore_of_dvd n.natAbs (1:ℤ).natAbs eoff hA (by norm_num) hdvd
  rw [hval]
  have hcast : ((n.natAbs : ℕ) : ℚ) = (n : ℚ) := by
    obtain ⟨k, rfl⟩ := Int.eq_ofNat_of_zero_le (le_of_lt hpos)
    simp
  rw [hcast]
  norm_num

theorem rdQ_exact (n : ℤ) (eoff : ℤ) (m' : ℤ) (j : ℕ)
    (hn : n = m' * 2^j) (hm : m'.natAbs ≤ 2^53) :
    val (rdQ n 1 eoff) = (n : ℚ) * (2:ℚ) ^ eoff := by
  have hj : (0:ℤ) < 2^j := by positivity
  rcases lt_trichotomy n 0 with hlt | heq | hgt
  · have hm'neg : m' < 0 := by
      by_contra hc
      push_neg at hc
      have : 0 ≤ n := hn ▸ mul_nonneg hc (by positivity)
      omega
    have hrep : -n = (m'.natAbs : ℤ) * 2^j := by
      have h1 : (m'.natAbs : ℤ) = -m' := by omega
      rw [h1, hn]; ring
    have h1 : rdQ n 1 eoff = dNeg (rdQ (-n) 1 eoff) := by
      have h2 := rdQ_neg_left (-n) 1 eoff (by norm_num)
      rwa [neg_neg] at h2
    rw [h1, val_dNeg]
    rw [rdQ_exact_pos (-n) eoff m'.natAbs j hrep hm (by omega)]
    push_cast
    ring
  · subst heq
    rw [rdQ_zero_left]
    simp [val]
  · have hm'pos : 0 < m' := by
      by_contra hc
      push_neg at hc
      have : n ≤ 0 := hn ▸ mul_nonpos_of_nonpos_of_nonneg hc (by positivity)
      omega
    have hrep : n = (m'.natAbs : ℤ) * 2^j := by
      have h1 : (m'.natAbs : ℤ) = m' := by omega
      rw [h1]; exact hn
    exact rdQ_exact_pos n eoff m'.natAbs j hrep hm hgt

theorem jsFloor_val (d : D) : jsFloor d = ⌊val d⌋ := by
  unfold jsFloor val
  by_cases he : 0 ≤ d.e
  · rw [if_pos he]
    have h1 : (2:ℚ) ^ d.e = ((2^d.e.toNat : ℤ) : ℚ) := by
      calc (2:ℚ) ^ d.e = (2:ℚ) ^ ((d.e.toNat : ℕ) : ℤ) := by rw [Int.toNat_of_nonneg he]
        _ = (2:ℚ) ^ (d.e.toNat : ℕ) := zpow_natCast 2 d.e.toNat
        _ = ((2^d.e.toNat : ℤ) : ℚ) := by push_cast; ring
    rw [h1, show (d.m : ℚ) * ((2^d.e.toNat : ℤ) : ℚ) = ((d.m * 2^d.e.toNat : ℤ) : ℚ) from by push_cast; ring]
    rw [Int.floor_intCast]
  · rw [if_neg he]
    have h1 : (2:ℚ) ^ d.e = (((2^((-d.e).toNat) : ℕ) : ℚ))⁻¹ := by
      calc (2:ℚ) ^ d.e = (2:ℚ) ^ (-(((-d.e).toNat : ℕ) : ℤ)) := by
            rw [Int.toNat_of_nonneg (by omega : 0 ≤ -d.e)]; ring_nf
        _ = ((2:ℚ) ^ (((-d.e).toNat : ℕ) : ℤ))⁻¹ := by rw [zpow_neg]
        _ = ((2:ℚ) ^ ((-d.e).toNat : ℕ))⁻¹ := by rw [zpow_natCast]
        _ = (((2^((-d.e).toNat) : ℕ) : ℚ))⁻¹ := by push_cast; ring
    rw [h1, ← div_eq_mul_inv, Rat.floor_intCast_div_natCast]

theorem jsFloor_nonneg (d : D) (h : 0 ≤ d.m) : 0 ≤ jsFloor d := by
  rw [jsFloor_val]
  rw [Int.le_floor]
  exact_mod_cast (val_m_nonneg d).mp h

theorem val_nonneg_of_m (d : D) (h : 0 ≤ d.m) : 0 ≤ val d := (val_m_nonneg d).mp h

theorem intToD_m (n : ℤ) : (intToD n).m = n := rfl

/-- binary64 value of the source literal `0.1` (`penaltyPercentage` in
`APP_CONFIG.quiz.pointsSystem`, config.js). -/
def lit01 : D := ⟨3602879701896397, -55⟩

/-- binary64 value of the source literal `0.2` (scoring.js line 59). -/
def lit02 : D := ⟨3602879701896397, -54⟩

/-- binary64 value of the source literal `0.3` (scoring.js line 129). -/
def lit03 : D := ⟨5404319552844595, -54⟩

/-- binary64 value of the source literal `0.5` (exact). -/
def lit05 : D := ⟨1, -1⟩

/-- binary64 value of the source literal `1.5` (`bonusMultiplier`, exact). -/
def lit15 : D := ⟨3, -1⟩

/-- A value produced by the JavaScript property read `pointsSystem[key]` when
it is not `undefined`: either a number held by one of the object literal's own
keys, or a member inherited from `Object.prototype` (a function object, or the
prototype object itself for `__proto__`), recorded with the key it was read
under.  Inherited members are objects, hence truthy. -/
inductive PropValue where
  | num (d : D)
  | inherited (name : String)
  deriving DecidableEq, Repr

/-- The own property names of `Object.prototype`, which every object literal
inherits: a property read with one of these keys on `pointsSystem` yields the
inherited member, not `undefined`. -/
def objectPrototypeKeys : List String :=
  ["constructor", "hasOwnProperty", "isPrototypeOf", "propertyIsEnumerable",
   "toLocaleString", "toString", "valueOf",
   "__defineGetter__", "__defineSetter__", "__lookupGetter__", "__lookupSetter__",
   "__proto__"]

/-- The property read `pointsSystem[key]` (config.js lines 33-39): the five own
keys of the object literal, then the prototype chain (`Object.prototype`),
else `undefined` (`none`). -/
def pointsSystemLookup (key : String) : Option PropValue :=
  if key = "easy" then some (.num (intToD 10))
  else if key = "medium" then some (.num (intToD 20))
  else if key = "hard" then some (.num (intToD 30))
  else if key = "bonusMultiplier" then some (.num lit15)
  else if key = "penaltyPercentage" then some (.num lit01)
  else if key ∈ objectPrototypeKeys then some (.inherited key)
  else none

/-- JavaScript truthiness of a property value: a number is truthy unless it is
`0`; an inherited `Object.prototype` member is an object, always truthy. -/
def propTruthy : PropValue → Bool
  | .num d => dTruthy d
  | .inherited _ => true

/-- `getBasePoints` (scoring.js 140-142): `pointsConfig[difficulty] || 20`;
the lookup result is returned if truthy, so an inherited `Object.prototype`
member passes through, and only a falsy result (`undefined` for a key on
neither the literal nor the prototype, or a stored `0`) falls back to the
medium value `20`.  No exception is thrown for any string. -/
def getBasePoints (difficulty : String) : PropValue :=
  match pointsSystemLookup difficulty with
  | some v => if propTruthy v then v else .num (intToD 20)
  | none => .num (intToD 20)

/-- Numeric reading of a property value, used where the source feeds the
result of `getBasePoints` into arithmetic.  When the value is an inherited
function the JavaScript arithmetic would produce `NaN`; that degenerate
region is outside this numeric model (the coercion returns the sentinel `0`
there), and every theorem whose conclusion could reach it pins the numeric
base value by hypothesis instead. -/
def propNum : PropValue → D
  | .num d => d
  | .inherited _ => intToD 0

/-- A question object (quiz.js placeholder shape / database row). -/
structure Question where
  id : String
  question : String
  qtype : String
  options : List String
  correctAnswer : String
  explanation : String
  category : String
  difficulty : String
  points : Option D
  deriving DecidableEq, Repr

/-- `question.points || this.getBasePoints(question.difficulty)` (scoring.js line 27). -/
def questionBasePoints (q : Question) : D :=
  match q.points with
  | some p => if dTruthy p then p else propNum (getBasePoints q.difficulty)
  | none => propNum (getBasePoints q.difficulty)

/-- A bonus or penalty line item (`{type, amount, description}`). -/
structure LineItem where
  itype : String
  amount : D
  description : String
  deriving DecidableEq, Repr

/-- `items.reduce((sum, b) => sum + b.amount, 0)`. -/
def sumAmounts (items : List LineItem) : D :=
  items.foldl (fun sum b => jsAdd sum b.amount) (intToD 0)

/-- The `breakdown` object of `createPointsBreakdown` (scoring.js 338-347). -/
structure Breakdown where
  base : D
  bonuses : D
  penalties : D
  total : D
  deriving DecidableEq, Repr

/-- `createPointsBreakdown` (scoring.js 338-347). -/
def createPointsBreakdown (basePoints : D) (bonuses penalties : List LineItem) : Breakdown :=
  { base := basePoints
    bonuses := sumAmounts bonuses
    penalties := sumAmounts penalties
    total := jsSub (jsAdd basePoints (sumAmounts bonuses)) (sumAmounts penalties) }

/-- `calculateSpeedBonus` (scoring.js 118-133): threshold 10/15/20 s by difficulty
(`timeThresholds[difficulty] || 15`), bonus `floor(base * (thr-t)/thr * 0.3)`
when `t ≤ thr`, else 0. -/
def calculateSpeedBonus (basePoints : D) (timeSpent : D) (difficulty : String) : D :=
  let threshold : D :=
    if difficulty = "easy" then intToD 10
    else if difficulty = "medium" then intToD 15
    else if difficulty = "hard" then intToD 20
    else intToD 15
  if dLe timeSpent threshold then
    intToD (jsFloor (jsMul (jsMul basePoints
      (jsDiv (jsSub threshold timeSpent) threshold)) lit03))
  else intToD 0

/-- Result object of `calculateAnswerPoints`. -/
structure ScoringResult where
  basePoints : D
  finalPoints : D
  bonuses : List LineItem
  penalties : List LineItem
  isCorrect : Bool
  breakdown : Breakdown
  deriving DecidableEq, Repr

/-- `calculateAnswerPoints` (scoring.js 26-109), with `options.perfectAccuracy`
passed as the last argument.  The accumulation of `finalPoints` and the
pushes to `bonuses`/`penalties` follow the source order. -/
def calculateAnswerPoints (question : Question) (isCorrect : Bool) (timeSpent : D)
    (consecutiveCorrect : ℕ) (perfectAccuracy : Bool) : ScoringResult :=
  let basePoints := questionBasePoints question
  if isCorrect then
    let streakBonus := jsFloor (jsSub (jsMul basePoints lit15) basePoints)
    let fp1 := if 2 ≤ consecutiveCorrect then jsAdd basePoints (intToD streakBonus) else basePoints
    let bon1 : List LineItem :=
      if 2 ≤ consecutiveCorrect then
        [⟨"streak", intToD streakBonus, toString (consecutiveCorrect + 1) ++ " in a row!"⟩]
      else []
    let speedBonus := calculateSpeedBonus basePoints timeSpent question.difficulty
    let fp2 := if dLt (intToD 0) speedBonus then jsAdd fp1 speedBonus else fp1
    let bon2 :=
      if dLt (intToD 0) speedBonus then
        bon1 ++ [(⟨"speed", speedBonus, "Quick answer!"⟩ : LineItem)]
      else bon1
    let difficultyBonus := jsFloor (jsMul basePoints lit02)
    let fp3 := if question.difficulty = "hard" then jsAdd fp2 (intToD difficultyBonus) else fp2
    let bon3 :=
      if question.difficulty = "hard" then
        bon2 ++ [(⟨"difficulty", intToD difficultyBonus, "Hard question mastery!"⟩ : LineItem)]
      else bon2
    let perfectBonus := jsFloor (jsMul basePoints lit05)
    let fp4 := if perfectAccuracy then jsAdd fp3 (intToD perfectBonus) else fp3
    let bon4 :=
      if perfectAccuracy then
        bon3 ++ [(⟨"perfect", intToD perfectBonus, "Perfect accuracy!"⟩ : LineItem)]
      else bon3
    { basePoints := basePoints
      finalPoints := jsMax fp4 (intToD 1)
      bonuses := bon4
      penalties := []
      isCorrect := true
      breakdown := createPointsBreakdown basePoints bon4 [] }
  else
    let penalty := jsFloor (jsMul basePoints lit01)
    let timePenalty := jsFloor (jsMul (intToD penalty) lit05)
    let fp1 :=
      if dLt (intToD 60) timeSpent then jsSub (dNeg (intToD penalty)) (intToD timePenalty)
      else dNeg (intToD penalty)
    let pen1 : List LineItem :=
      if dLt (intToD 60) timeSpent then
        [⟨"incorrect", intToD penalty, "Incorrect answer"⟩,
         ⟨"time", intToD timePenalty, "Slow response"⟩]
      else [⟨"incorrect", intToD penalty, "Incorrect answer"⟩]
    { basePoints := basePoints
      finalPoints := jsMax fp1 (dNeg (intToD (jsFloor (jsMul basePoints lit05))))
      bonuses := []
      penalties := pen1
      isCorrect := false
      breakdown := createPointsBreakdown basePoints [] pen1 }

/-- Grade object of `calculateGrade` (scoring.js 278-329). -/
structure Grade where
  letter : String
  description : String
  color : String
  percentage : D
  deriving DecidableEq, Repr

/-- `calculateGrade` (scoring.js 278-329): fixed threshold table on accuracy. -/
def calculateGrade (accuracy : D) : Grade :=
  if dLe (intToD 95) accuracy then ⟨"A+", "Outstanding!", "#10b981", accuracy⟩
  else if dLe (intToD 90) accuracy then ⟨"A", "Excellent!", "#10b981", accuracy⟩
  else if dLe (intToD 85) accuracy then ⟨"A-", "Very Good!", "#34d399", accuracy⟩
  else if dLe (intToD 80) accuracy then ⟨"B+", "Good!", "#60a5fa", accuracy⟩
  else if dLe (intToD 75) accuracy then ⟨"B", "Above Average", "#60a5fa", accuracy⟩
  else if dLe (intToD 70) accuracy then ⟨"B-", "Satisfactory", "#93c5fd", accuracy⟩
  else if dLe (intToD 65) accuracy then ⟨"C+", "Fair", "#fbbf24", accuracy⟩
  else if dLe (intToD 60) accuracy then ⟨"C", "Needs Improvement", "#fbbf24", accuracy⟩
  else if dLe (intToD 50) accuracy then ⟨"D", "Below Average", "#f87171", accuracy⟩
  else ⟨"F", "Keep Practicing!", "#ef4444", accuracy⟩

/-- An answer record as built by `submitAnswer` (quiz.js 761-778); the fields
read by the scoring engine are `points`, `basePoints`, `isCorrect`, `bonuses`,
`penalties`, `difficulty`.  The `timestamp` field (wall clock) is omitted. -/
structure AnswerRecord where
  questionId : String
  question : String
  selectedAnswer : String
  correctAnswer : String
  isCorrect : Bool
  points : D
  basePoints : D
  bonuses : List LineItem
  penalties : List LineItem
  breakdown : Breakdown
  timeSpent : D
  timeSpentOnQuestion : D
  difficulty : String
  category : String
  explanation : String
  deriving DecidableEq, Repr

/-- The `quizInfo` argument of `calculateTotalScore`; absent fields are
modelled by their falsy defaults (`""` for strings, `0` for numbers). -/
structure QuizInfo where
  category : String
  difficulty : String
  timeSpent : D
  timeLimit : D
  deriving DecidableEq, Repr

/-- `calculateCompletionBonuses` (scoring.js 216-269).  For an empty answer
list the source computes `accuracy = NaN` (0/0) and every comparison with
`NaN` is false; the model's `0/0 = 0` convention makes the same branches
false, so the produced list coincides. -/
def calculateCompletionBonuses (answers : List AnswerRecord) (correctAnswers : ℕ)
    (quizInfo : QuizInfo) : List LineItem :=
  let accuracy := jsMul (jsDiv (intToD correctAnswers) (intToD answers.length)) (intToD 100)
  let b1 : List LineItem :=
    if dEqv accuracy (intToD 100) then
      [⟨"perfect_score", intToD (jsFloor (jsMul (intToD answers.length) (intToD 10))),
        "Perfect Score! 🏆"⟩]
    else if dLe (intToD 90) accuracy then
      [⟨"high_accuracy", intToD (jsFloor (jsMul (intToD answers.length) (intToD 5))),
        "Excellent Performance! ⭐"⟩]
    else []
  let b2 :=
    if 10 ≤ answers.length then
      b1 ++ [⟨"completion", intToD (jsFloor (jsMul (intToD answers.length) (intToD 2))),
        "Quiz Completion Bonus"⟩]
    else b1
  let b3 :=
    if dTruthy quizInfo.timeSpent ∧ dTruthy quizInfo.timeLimit then
      (if dLt (jsDiv quizInfo.timeSpent quizInfo.timeLimit) lit05 ∧
          dLe (intToD 70) accuracy then
        b2 ++ [⟨"speed_completion", intToD (jsFloor (jsMul (intToD answers.length) (intToD 3))),
          "Lightning Fast! ⚡"⟩]
      else b2)
    else b2
  if quizInfo.category ≠ "" ∧ quizInfo.category ≠ "all" ∧ dEqv accuracy (intToD 100) then
    b3 ++ [⟨"category_mastery", intToD (jsFloor (jsMul (intToD answers.length) (intToD 8))),
      quizInfo.category ++ " Master! 🎓"⟩]
  else b3

/-- Result object of `calculateTotalScore`; the nested `breakdown` object is
flattened into the four `breakdown*` fields. -/
structure TotalScore where
  totalPoints : D
  correctAnswers : ℕ
  totalQuestions : ℕ
  accuracy : D
  maxPossiblePoints : D
  totalBonuses : D
  totalPenalties : D
  completionBonuses : List LineItem
  grade : Grade
  breakdownBaseScore : D
  breakdownBonuses : D
  breakdownPenalties : D
  breakdownCompletionBonuses : D
  deriving DecidableEq, Repr

/-- `calculateTotalScore` (scoring.js 150-207).  The `forEach` loop keeps four
independent accumulators; they are modelled as four folds in list order. -/
def calculateTotalScore (answers : List AnswerRecord) (quizInfo : QuizInfo) : TotalScore :=
  let totalPoints0 := answers.foldl
    (fun t a => jsAdd t (if dTruthy a.points then a.points else intToD 0)) (intToD 0)
  let maxPossiblePoints := answers.foldl
    (fun t a => jsAdd t (if dTruthy a.basePoints then a.basePoints
      else propNum (getBasePoints
        (if a.difficulty = "" then "medium" else a.difficulty)))) (intToD 0)
  let correctAnswers := (answers.filter (fun a => a.isCorrect)).length
  let totalBonuses := answers.foldl (fun t a => jsAdd t (sumAmounts a.bonuses)) (intToD 0)
  let totalPenalties := answers.foldl (fun t a => jsAdd t (sumAmounts a.penalties)) (intToD 0)
  let completionBonuses := calculateCompletionBonuses answers correctAnswers quizInfo
  let totalPoints := jsAdd totalPoints0 (sumAmounts completionBonuses)
  let accuracy :=
    if 0 < answers.length then
      jsMul (jsDiv (intToD correctAnswers) (intToD answers.length)) (intToD 100)
    else intToD 0
  { totalPoints := jsMax (intToD 0) totalPoints
    correctAnswers := correctAnswers
    totalQuestions := answers.length
    accuracy := jsDiv (intToD (jsRound (jsMul accuracy (intToD 10)))) (intToD 10)
    maxPossiblePoints := maxPossiblePoints
    totalBonuses := totalBonuses
    totalPenalties := totalPenalties
    completionBonuses := completionBonuses
    grade := calculateGrade accuracy
    breakdownBaseScore := jsAdd (jsSub totalPoints totalBonuses) totalPenalties
    breakdownBonuses := totalBonuses
    breakdownPenalties := totalPenalties
    breakdownCompletionBonuses := sumAmounts completionBonuses }

/-- The fixed placeholder question set of `generatePlaceholderQuestions`
(quiz.js 202-313). -/
def placeholderQuestions : List Question :=
  [⟨"1", "What is the capital of France?", "multiple_choice",
    ["London", "Berlin", "Paris", "Madrid"], "Paris",
    "Paris is the capital and most populous city of France.",
    "Geography", "easy", some (intToD 10)⟩,
   ⟨"2", "Which planet is known as the Red Planet?", "multiple_choice",
    ["Venus", "Mars", "Jupiter", "Saturn"], "Mars",
    "Mars is called the Red Planet due to its reddish appearance.",
    "Science", "easy", some (intToD 10)⟩,
   ⟨"3", "Who painted the Mona Lisa?", "multiple_choice",
    ["Vincent van Gogh", "Pablo Picasso", "Leonardo da Vinci", "Michelangelo"],
    "Leonardo da Vinci",
    "The Mona Lisa was painted by Leonardo da Vinci between 1503 and 1519.",
    "Art", "medium", some (intToD 20)⟩,
   ⟨"4", "What is the largest ocean on Earth?", "multiple_choice",
    ["Atlantic Ocean", "Indian Ocean", "Arctic Ocean", "Pacific Ocean"], "Pacific Ocean",
    "The Pacific Ocean is the largest and deepest ocean on Earth.",
    "Geography", "easy", some (intToD 10)⟩,
   ⟨"5", "In which year did World War II end?", "multiple_choice",
    ["1944", "1945", "1946", "1947"], "1945",
    "World War II ended in 1945 with the surrender of Japan.",
    "History", "medium", some (intToD 20)⟩,
   ⟨"6", "The Great Wall of China is visible from space.", "true_false",
    ["True", "False"], "False",
    "This is a common myth. The Great Wall is not visible from space with the naked eye.",
    "General Knowledge", "medium", some (intToD 20)⟩,
   ⟨"7", "What gas do plants absorb from the atmosphere?", "multiple_choice",
    ["Oxygen", "Nitrogen", "Carbon Dioxide", "Hydrogen"], "Carbon Dioxide",
    "Plants absorb carbon dioxide from the atmosphere during photosynthesis.",
    "Science", "easy", some (intToD 10)⟩,
   ⟨"8", "How many players are on a basketball team on the court at one time?", "multiple_choice",
    ["4", "5", "6", "7"], "5",
    "Each basketball team has 5 players on the court at one time.",
    "Sports", "easy", some (intToD 10)⟩,
   ⟨"9", "Which movie features the song \"Let It Go\"?", "multiple_choice",
    ["Moana", "Frozen", "Tangled", "The Little Mermaid"], "Frozen",
    "\"Let It Go\" is the famous song from Disney's Frozen, sung by Elsa.",
    "Entertainment", "easy", some (intToD 10)⟩,
   ⟨"10", "What does \"WWW\" stand for?", "multiple_choice",
    ["World Wide Web", "World Web Wide", "Wide World Web", "Web World Wide"], "World Wide Web",
    "WWW stands for World Wide Web, the information system on the Internet.",
    "Technology", "easy", some (intToD 10)⟩]

/-- The medium-difficulty, base-20 placeholder question (used by concrete
scenarios). -/
def monaLisaQuestion : Question :=
  ⟨"3", "Who painted the Mona Lisa?", "multiple_choice",
   ["Vincent van Gogh", "Pablo Picasso", "Leonardo da Vinci", "Michelangelo"],
   "Leonardo da Vinci",
   "The Mona Lisa was painted by Leonardo da Vinci between 1503 and 1519.",
   "Art", "medium", some (intToD 20)⟩

/-- A fully-correct medium answer record (points 20), as a session of all
correct answers would produce. -/
def correctAnswer20 : AnswerRecord :=
  ⟨"3", "Who painted the Mona Lisa?", "Leonardo da Vinci", "Leonardo da Vinci", true,
   intToD 20, intToD 20, [], [], ⟨intToD 20, intToD 0, intToD 0, intToD 20⟩,
   intToD 0, intToD 0, "medium", "Science", ""⟩

/-- An incorrect medium answer record (points -2). -/
def incorrectAnswer20 : AnswerRecord :=
  ⟨"3", "Who painted the Mona Lisa?", "Pablo Picasso", "Leonardo da Vinci", false,
   dNeg (intToD 2), intToD 20, [], [], ⟨intToD 20, intToD 0, intToD 2, intToD 18⟩,
   intToD 0, intToD 0, "medium", "Science", ""⟩

theorem val_eq_of_dEqv (a b : D) (h : dEqv a b) : val a = val b := (dEqv_iff_val a b).mp h

theorem val_jsMul_lit05 (a : D) (ha : a.m.natAbs ≤ 2^53) :
    val (jsMul a lit05) = val a / 2 := by
  unfold jsMul lit05
  rw [show a.m * (⟨1, -1⟩ : D).m = a.m * 2^0 from by simp]
  rw [rdQ_exact (a.m * 2^0) (a.e + (⟨1, -1⟩ : D).e) a.m 0 rfl ha]
  unfold val
  rw [show a.e + (⟨1, -1⟩ : D).e = a.e + (-1) from rfl]
  rw [zpow_add₀ (by norm_num : (2:ℚ) ≠ 0)]
  rw [zpow_neg_one]
  push_cast
  ring

theorem jsFloor_jsMul_lit05 (a : D) (ha : a.m.natAbs ≤ 2^53) :
    jsFloor (jsMul a lit05) = ⌊val a / 2⌋ := by
  rw [jsFloor_val, val_jsMul_lit05 a ha]

theorem floor_natCast_div_two (B : ℕ) : ⌊(B : ℚ) / 2⌋ = ((B / 2 : ℕ) : ℤ) := by
  have h := Rat.floor_intCast_div_natCast (B : ℤ) 2
  rw [show (((B:ℤ)) : ℚ) = (B : ℚ) from by push_cast; ring] at h
  rw [show (((2:ℕ)) : ℚ) = (2 : ℚ) from by push_cast; ring] at h
  rw [h]
  omega

theorem val_dNeg_intToD (n : ℤ) : val (dNeg (intToD n)) = -(n:ℚ) := by
  rw [val_dNeg, val_intToD]

theorem val_mk_negExp (m : ℤ) (k : ℕ) : val ⟨m, -(k : ℤ)⟩ = (m : ℚ) / 2^k := by
  unfold val
  rw [zpow_neg, zpow_natCast, div_eq_mul_inv]

theorem dAddExact_m (a b : D) : (dAddExact a b).m =
    a.m * 2^((a.e - min a.e b.e).toNat) + b.m * 2^((b.e - min a.e b.e).toNat) := rfl

theorem val_jsSub_nonpos (x y : D) (hx : x.m ≤ 0) (hy : 0 ≤ y.m) : val (jsSub x y) ≤ 0 := by
  unfold jsSub rdD
  rw [← val_m_nonpos]
  refine rdQ_m_nonpos _ _ _ ?_ (by norm_num)
  rw [dAddExact_m]
  have h1 : x.m * 2^((x.e - min x.e (dNeg y).e).toNat) ≤ 0 :=
    mul_nonpos_of_nonpos_of_nonneg hx (by positivity)
  have h2 : (dNeg y).m * 2^(((dNeg y).e - min x.e (dNeg y).e).toNat) ≤ 0 :=
    mul_nonpos_of_nonpos_of_nonneg (show -y.m ≤ 0 by omega) (by positivity)
  exact add_nonpos h1 h2

theorem jsMul_m_nonneg (a b : D) (ha : 0 ≤ a.m) (hb : 0 ≤ b.m) : 0 ≤ (jsMul a b).m := by
  unfold jsMul
  exact rdQ_m_nonneg _ _ _ (mul_nonneg ha hb) (by norm_num)

/-- C1: for every question with difficulty easy, medium or hard, every
binary64 `timeSpent ≥ 0` and every `consecutiveCorrect ≥ 0`: a correct answer
yields `finalPoints ≥ 1`; an incorrect answer yields
`-⌊basePoints/2⌋ ≤ finalPoints ≤ 0`, where `basePoints` is the question's
base value `B` (a natural number; `B ≤ 2^53` is the binary64-exactness range
of integers, the only range a JavaScript `number` can hold such a value in). -/
theorem C1_answer_point_bounds (q : Question) (ts : D) (cc : ℕ) (perfect : Bool) (B : ℕ)
    (hdiff : q.difficulty = "easy" ∨ q.difficulty = "medium" ∨ q.difficulty = "hard")
    (hts : 0 ≤ ts.m)
    (hBval : val (questionBasePoints q) = (B : ℚ))
    (hBm : (questionBasePoints q).m.natAbs ≤ 2^53) :
    1 ≤ val (calculateAnswerPoints q true ts cc perfect).finalPoints ∧
    val (calculateAnswerPoints q false ts cc perfect).finalPoints ≤ 0 ∧
    -(((B / 2 : ℕ) : ℚ)) ≤ val (calculateAnswerPoints q false ts cc perfect).finalPoints := by
  have hm0 : 0 ≤ (questionBasePoints q).m :=
    (val_m_nonneg _).mpr (by rw [hBval]; positivity)
  have hpen : 0 ≤ jsFloor (jsMul (questionBasePoints q) lit01) :=
    jsFloor_nonneg _ (jsMul_m_nonneg _ _ hm0 (by norm_num [lit01]))
  have htp : 0 ≤ jsFloor (jsMul (intToD (jsFloor (jsMul (questionBasePoints q) lit01))) lit05) :=
    jsFloor_nonneg _ (jsMul_m_nonneg _ _ (by rw [intToD_m]; exact hpen) (by norm_num [lit05]))
  have hF : jsFloor (jsMul (questionBasePoints q) lit05) = ((B / 2 : ℕ) : ℤ) := by
    rw [jsFloor_jsMul_lit05 _ hBm, hBval, floor_natCast_div_two]
  have hshape : (calculateAnswerPoints q false ts cc perfect).finalPoints =
      jsMax (if dLt (intToD 60) ts then
               jsSub (dNeg (intToD (jsFloor (jsMul (questionBasePoints q) lit01))))
                 (intToD (jsFloor (jsMul (intToD (jsFloor (jsMul (questionBasePoints q) lit01))) lit05)))
             else dNeg (intToD (jsFloor (jsMul (questionBasePoints q) lit01))))
        (dNeg (intToD (jsFloor (jsMul (questionBasePoints q) lit05)))) := rfl
  refine ⟨?_, ?_, ?_⟩
  · obtain ⟨x, hx⟩ : ∃ x, (calculateAnswerPoints q true ts cc perfect).finalPoints =
        jsMax x (intToD 1) := ⟨_, rfl⟩
    rw [hx, val_jsMax, val_intToD]
    push_cast
    exact le_max_right _ _
  · rw [hshape, val_jsMax]
    apply max_le
    · by_cases hc : dLt (intToD 60) ts
      · rw [if_pos hc]
        refine val_jsSub_nonpos _ _ ?_ ?_
        · show -(jsFloor (jsMul (questionBasePoints q) lit01)) ≤ 0
          omega
        · show 0 ≤ jsFloor (jsMul (intToD (jsFloor (jsMul (questionBasePoints q) lit01))) lit05)
          exact htp
      · rw [if_neg hc, val_dNeg_intToD]
        have : (0:ℚ) ≤ (jsFloor (jsMul (questionBasePoints q) lit01) : ℚ) := by exact_mod_cast hpen
        linarith
    · rw [val_dNeg_intToD, hF]
      have : (0:ℚ) ≤ (((B / 2 : ℕ) : ℤ) : ℚ) := by positivity
      linarith
  · rw [hshape, val_jsMax]
    have h1 : -(((B / 2 : ℕ)) : ℚ) = val (dNeg (intToD (jsFloor (jsMul (questionBasePoints q) lit05)))) := by
      rw [val_dNeg_intToD, hF]
      norm_cast
    rw [h1]
    exact le_max_right _ _

/-- C1 witness: the bounds instantiated at the medium placeholder question,
`timeSpent = 5`, `consecutiveCorrect = 0`, base value 20. -/
theorem C1_answer_point_bounds_witness :
    ((monaLisaQuestion.difficulty = "easy" ∨ monaLisaQuestion.difficulty = "medium" ∨
        monaLisaQuestion.difficulty = "hard") ∧
      0 ≤ (intToD 5).m ∧
      val (questionBasePoints monaLisaQuestion) = ((20:ℕ) : ℚ) ∧
      (questionBasePoints monaLisaQuestion).m.natAbs ≤ 2^53) ∧
    (1 ≤ val (calculateAnswerPoints monaLisaQuestion true (intToD 5) 0 false).finalPoints ∧
     val (calculateAnswerPoints monaLisaQuestion false (intToD 5) 0 false).finalPoints ≤ 0 ∧
     -((((20:ℕ) / 2 : ℕ) : ℚ)) ≤
       val (calculateAnswerPoints monaLisaQuestion false (intToD 5) 0 false).finalPoints) :=
  ⟨⟨by decide, by decide,
    (val_eq_of_dEqv _ _ (by decide)).trans (val_intToD 20) |>.trans (by norm_num), by decide⟩,
   C1_answer_point_bounds monaLisaQuestion (intToD 5) 0 false 20 (by decide) (by decide)
     ((val_eq_of_dEqv _ _ (by decide)).trans (val_intToD 20) |>.trans (by norm_num)) (by decide)⟩

/-- C2 counterexample: for the medium base-20 question answered correctly with
`timeSpent = 5` and `consecutiveCorrect = 2`, `calculateAnswerPoints` does not
return 34: the binary64 evaluation of `20 * ((15-5)/15) * 0.3` is
`3.9999999999999996`, whose floor is 3, so the speed bonus is 3 and the total
is 33. -/
theorem C2_scenario_counterexample :
    val (calculateAnswerPoints monaLisaQuestion true (intToD 5) 2 false).finalPoints ≠ 34 := by
  have h : dEqv (calculateAnswerPoints monaLisaQuestion true (intToD 5) 2 false).finalPoints
      (intToD 33) := by decide
  rw [val_eq_of_dEqv _ _ h, val_intToD]
  norm_num

/-- C2 amended: the same scenario returns `finalPoints = 33`, composed of
base 20, a streak bonus of 10 and a speed bonus of 3 (the floor of the
binary64 product `3.9999999999999996`), with exactly two bonus line items and
no penalties. -/
theorem C2_scenario_amended :
    val (calculateAnswerPoints monaLisaQuestion true (intToD 5) 2 false).finalPoints = 33 ∧
    val (calculateAnswerPoints monaLisaQuestion true (intToD 5) 2 false).basePoints = 20 ∧
    (calculateAnswerPoints monaLisaQuestion true (intToD 5) 2 false).bonuses =
      [⟨"streak", intToD 10, "3 in a row!"⟩, ⟨"speed", intToD 3, "Quick answer!"⟩] ∧
    (calculateAnswerPoints monaLisaQuestion true (intToD 5) 2 false).penalties = [] := by
  refine ⟨?_, ?_, by decide, by decide⟩
  · rw [val_eq_of_dEqv _ _ (show dEqv _ (intToD 33) by decide), val_intToD]
    norm_num
  · rw [val_eq_of_dEqv _ _ (show dEqv _ (intToD 20) by decide), val_intToD]
    norm_num

/-- C5 counterexample: two invalid difficulty strings on which
`getBasePoints` does not return the medium base 20.  `"bonusMultiplier"` is an
own key of the `pointsSystem` config object, so the read returns its value
1.5; `"toString"` is inherited from `Object.prototype`, so the read returns
the inherited function — truthy, so the `|| 20` fallback never fires. -/
theorem C5_fallback_counterexample :
    getBasePoints "bonusMultiplier" ≠ PropValue.num (intToD 20) ∧
    getBasePoints "toString" ≠ PropValue.num (intToD 20) ∧
    getBasePoints "bonusMultiplier" = PropValue.num lit15 ∧
    getBasePoints "toString" = PropValue.inherited "toString" := by
  refine ⟨by decide, by decide, by decide, by decide⟩

/-- C5 amended: `getBasePoints` falls back to the medium base 20 exactly for
the strings that name a property on neither the `pointsSystem` object literal
nor its prototype: for every string that is none of the five own keys and not
an `Object.prototype` member, the result is the number 20, and no exception
is thrown (the property read yields `undefined` and `|| 20` applies).  The
two non-difficulty own keys leak their configuration values (1.5 and the
binary64 value of 0.1), and every `Object.prototype` key returns the
inherited member, never 20. -/
theorem C5_fallback_amended (d : String)
    (h1 : d ≠ "easy") (h2 : d ≠ "medium") (h3 : d ≠ "hard")
    (h4 : d ≠ "bonusMultiplier") (h5 : d ≠ "penaltyPercentage")
    (h6 : d ∉ objectPrototypeKeys) :
    getBasePoints d = PropValue.num (intToD 20) ∧
    getBasePoints "bonusMultiplier" = PropValue.num lit15 ∧
    getBasePoints "penaltyPercentage" = PropValue.num lit01 ∧
    (∀ k ∈ objectPrototypeKeys, getBasePoints k = PropValue.inherited k) := by
  refine ⟨?_, by decide, by decide, by decide⟩
  unfold getBasePoints pointsSystemLookup
  rw [if_neg h1, if_neg h2, if_neg h3, if_neg h4, if_neg h5,
    if_neg (by simpa using h6)]

/-- C5 witness: the amended fallback applied at the string `"impossible"`,
which names a property on neither the config literal nor its prototype. -/
theorem C5_fallback_witness :
    ("impossible" ≠ "easy" ∧ "impossible" ≠ "medium" ∧ "impossible" ≠ "hard" ∧
      "impossible" ≠ "bonusMultiplier" ∧ "impossible" ≠ "penaltyPercentage" ∧
      "impossible" ∉ objectPrototypeKeys) ∧
    getBasePoints "impossible" = PropValue.num (intToD 20) :=
  ⟨⟨by decide, by decide, by decide, by decide, by decide, by decide⟩,
   (C5_fallback_amended "impossible" (by decide) (by decide) (by decide) (by decide)
     (by decide) (by decide)).1⟩

/-- A ten-question all-correct session (category Science). -/
def scienceSession : List AnswerRecord := List.replicate 10 correctAnswer20

/-- Quiz info for the Science session: elapsed 120 s of a 300 s budget (40%). -/
def scienceQuizInfo : QuizInfo := ⟨"Science", "medium", intToD 120, intToD 300⟩

/-- C6: for 10/10 correct answers in category Science with elapsed time 40% of
the budget, the completion-bonus list is exactly perfect-score (+100),
completion (+20), speed-completion (+30) and category-mastery (+80) — in
particular the high-accuracy bonus is absent — and the grade letter is A+. -/
theorem C6_completion_bonuses :
    (calculateTotalScore scienceSession scienceQuizInfo).completionBonuses =
      [⟨"perfect_score", intToD 100, "Perfect Score! 🏆"⟩,
       ⟨"completion", intToD 20, "Quiz Completion Bonus"⟩,
       ⟨"speed_completion", intToD 30, "Lightning Fast! ⚡"⟩,
       ⟨"category_mastery", intToD 80, "Science Master! 🎓"⟩] ∧
    (calculateTotalScore scienceSession scienceQuizInfo).grade.letter = "A+" := by
  constructor
  · decide
  · decide

/-- The 80-answer session with 23 correct answers, and a quiz-info object with
every field absent (falsy). -/
def mixedSession : List AnswerRecord :=
  List.replicate 23 correctAnswer20 ++ List.replicate 57 incorrectAnswer20

/-- Quiz info with all fields at their falsy defaults. -/
def emptyQuizInfo : QuizInfo := ⟨"", "", intToD 0, intToD 0⟩

/-- C3 counterexample: for 23 correct answers out of 80, the exact accuracy is
`28.75`, which rounds (half-up) to `28.8`; but the binary64 pipeline computes
`(23/80)*100*10 = 287.49999999999994`, `Math.round` gives 287, and the
returned accuracy is 28.7 — neither the rational `28.8` nor the binary64
value of `28.8`. -/
theorem C3_accuracy_counterexample :
    val (calculateTotalScore mixedSession emptyQuizInfo).accuracy ≠ 288/10 ∧
    ¬ dEqv (calculateTotalScore mixedSession emptyQuizInfo).accuracy
        (jsDiv (intToD 288) (intToD 10)) := by
  constructor
  · have h : (calculateTotalScore mixedSession emptyQuizInfo).accuracy =
        ⟨8078331831595827, -(48:ℕ)⟩ := by decide
    rw [h, val_mk_negExp]
    norm_num
  · decide

set_option maxHeartbeats 3200000 in
/-- For every session size `t ≤ 20` and correct count `c ≤ t`, the binary64
accuracy pipeline `round(((c/t)*100)*10)/10` equals the exactly-rounded value
`round(1000*c/t)/10` (stored as a binary64 number): no rounding tie is
missed in this range. -/
theorem accuracy_rounding_small : ∀ t : ℕ, t < 21 → ∀ c : ℕ, c < t + 1 → 0 < t →
    jsDiv (intToD (jsRound (jsMul (jsMul (jsDiv (intToD c) (intToD t)) (intToD 100))
      (intToD 10)))) (intToD 10) =
    jsDiv (intToD (((2000 * c + t) / (2 * t) : ℕ))) (intToD 10) := by decide

set_option maxHeartbeats 3200000 in
/-- C3 amended: `calculateTotalScore` never returns a negative total
(floored at 0); the accuracy is 0 for an empty answer list (no division by
zero); and for every session of at most 20 answers the accuracy field equals
`100*correct/total` rounded to one decimal, i.e. the binary64 value of
`round(1000*correct/total)/10` — only longer sessions can hit a rounding tie
(first at 23/80) where the binary64 pipeline rounds the other way. -/
theorem C3_total_score_amended (answers : List AnswerRecord) (qi : QuizInfo) :
    0 ≤ val (calculateTotalScore answers qi).totalPoints ∧
    (answers.length = 0 → (calculateTotalScore answers qi).accuracy = intToD 0) ∧
    (0 < answers.length → answers.length ≤ 20 →
      (calculateTotalScore answers qi).accuracy =
        jsDiv (intToD (((2000 * (answers.filter (fun a => a.isCorrect)).length +
          answers.length) / (2 * answers.length) : ℕ))) (intToD 10)) := by
  refine ⟨?_, ?_, ?_⟩
  · obtain ⟨x, hx⟩ : ∃ x, (calculateTotalScore answers qi).totalPoints =
        jsMax (intToD 0) x := ⟨_, rfl⟩
    rw [hx, val_jsMax, val_intToD]
    push_cast
    exact le_max_left _ _
  · intro h0
    rw [List.length_eq_zero] at h0
    subst h0
    rfl
  · intro hpos hle
    have hshape : (calculateTotalScore answers qi).accuracy =
        jsDiv (intToD (jsRound (jsMul (if 0 < answers.length then
          jsMul (jsDiv (intToD ((answers.filter (fun a => a.isCorrect)).length))
            (intToD answers.length)) (intToD 100)
          else intToD 0) (intToD 10)))) (intToD 10) := by
      unfold calculateTotalScore
      simp only []
    rw [hshape, if_pos hpos]
    have h := accuracy_rounding_small answers.length (by omega)
      ((answers.filter (fun a => a.isCorrect)).length)
      (by have := List.length_filter_le (fun a => a.isCorrect) answers; omega) hpos
    with_reducible exact h

/-- C3 witness: the amended statement applied to the ten-answer Science
session. -/
theorem C3_total_score_witness :
    (scienceSession.length = 0 → (calculateTotalScore scienceSession emptyQuizInfo).accuracy =
      intToD 0) ∧
    (0 < scienceSession.length ∧ scienceSession.length ≤ 20) ∧
    (calculateTotalScore scienceSession emptyQuizInfo).accuracy =
      jsDiv (intToD (((2000 * (scienceSession.filter (fun a => a.isCorrect)).length +
        scienceSession.length) / (2 * scienceSession.length) : ℕ))) (intToD 10) :=
  ⟨(C3_total_score_amended scienceSession emptyQuizInfo).2.1, ⟨by decide, by decide⟩,
   (C3_total_score_amended scienceSession emptyQuizInfo).2.2 (by decide) (by decide)⟩

/-- One Fisher-Yates swap: exchange positions `i` and `j`
(`[a[i], a[j]] = [a[j], a[i]]`); out-of-range indices never occur in the
source (`j = floor(random()*(i+1)) ∈ [0,i]`) and leave the list unchanged. -/
def listSwap {α : Type} (l : List α) (i j : ℕ) : List α :=
  match l[i]?, l[j]? with
  | some a, some b => (l.set i b).set j a
  | _, _ => l

/-- The loop of `Utils.shuffleArray` (part_001 lines 123-130):
`for (i = length-1; i > 0; i--) swap(i, floor(random()*(i+1)))`.
`rand i` abstracts `Math.floor(Math.random()*(i+1))`; the `min` clamp
records that the value always lies in `[0, i]`. -/
def fyGo {α : Type} (rand : ℕ → ℕ) : ℕ → List α → List α
  | 0, l => l
  | i+1, l => fyGo rand i (listSwap l (i+1) (min (rand (i+1)) (i+1)))

/-- `Utils.shuffleArray` (part_001 lines 123-130). -/
def shuffleArray {α : Type} (rand : ℕ → ℕ) (l : List α) : List α :=
  fyGo rand (l.length - 1) l

theorem list_set_self {α : Type} (l : List α) (i : ℕ) (a : α) (h : l[i]? = some a) :
    l.set i a = l := by
  induction l generalizing i with
  | nil => simp at h
  | cons x s ih =>
    cases i with
    | zero =>
      simp only [List.getElem?_cons_zero, Option.some_inj] at h
      rw [← h]
      rfl
    | succ k =>
      simp only [List.getElem?_cons_succ] at h
      show x :: s.set k a = x :: s
      rw [ih k h]

theorem cons_set_perm {α : Type} (t : List α) (k : ℕ) (a b : α) (h : t[k]? = some b) :
    (b :: t.set k a).Perm (a :: t) := by
  induction t generalizing k with
  | nil => simp at h
  | cons x s ih =>
    cases k with
    | zero =>
      simp only [List.getElem?_cons_zero, Option.some_inj] at h
      rw [← h]
      exact List.Perm.swap a x s
    | succ k =>
      simp only [List.getElem?_cons_succ] at h
      show (b :: x :: s.set k a).Perm (a :: x :: s)
      exact ((List.Perm.swap x b _).trans (((ih k h).cons x).trans (List.Perm.swap a x s)))

theorem listSwap_perm {α : Type} (l : List α) (i j : ℕ) : (listSwap l i j).Perm l := by
  unfold listSwap
  cases hi : l[i]? with
  | none => exact List.Perm.refl l
  | some a =>
    cases hj : l[j]? with
    | none => exact List.Perm.refl l
    | some b =>
      show ((l.set i b).set j a).Perm l
      by_cases hij : i = j
      · subst hij
        rw [List.set_set]
        have hab : a = b := by
          rw [hi] at hj
          exact Option.some_inj.mp hj
        subst hab
        rw [list_set_self l i a hi]
      · have hset : (l.set i b)[j]? = some b := by
          rw [List.getElem?_set_ne hij]
          exact hj
        have P1 : (b :: (l.set i b).set j a).Perm (a :: l.set i b) :=
          cons_set_perm (l.set i b) j a b hset
        have P2 : (a :: l.set i b).Perm (b :: l) := cons_set_perm l i b a hi
        exact (P1.trans P2).cons_inv

theorem fyGo_perm {α : Type} (rand : ℕ → ℕ) :
    ∀ (n : ℕ) (l : List α), (fyGo rand n l).Perm l := by
  intro n
  induction n with
  | zero => intro l; exact List.Perm.refl l
  | succ n ih =>
    intro l
    exact (ih _).trans (listSwap_perm l (n+1) (min (rand (n+1)) (n+1)))

theorem shuffleArray_perm {α : Type} (rand : ℕ → ℕ) (l : List α) :
    (shuffleArray rand l).Perm l := fyGo_perm rand (l.length - 1) l

/-- `toLowerCase()`: lower-case every character (defined on the character
list so that it evaluates in the kernel). -/
def jsToLower (s : String) : String := String.mk (s.data.map Char.toLower)

/-- The category/difficulty filter of `generatePlaceholderQuestions`
(quiz.js 315-328): filter by category when it is truthy and not `"all"`
(case-insensitive comparison), then likewise by difficulty. -/
def filteredPlaceholder (category difficulty : String) : List Question :=
  let f1 :=
    if category ≠ "" ∧ category ≠ "all" then
      placeholderQuestions.filter (fun q => jsToLower q.category = jsToLower category)
    else placeholderQuestions
  if difficulty ≠ "" ∧ difficulty ≠ "all" then
    f1.filter (fun q => jsToLower q.difficulty = jsToLower difficulty)
  else f1

/-- The effective question pool (quiz.js 330-333): when no question matches
the filters, the full placeholder list is used instead. -/
def placeholderPool (category difficulty : String) : List Question :=
  if (filteredPlaceholder category difficulty).isEmpty then placeholderQuestions
  else filteredPlaceholder category difficulty

/-- `generatePlaceholderQuestions` (quiz.js 201-338): filter, fall back to the
full pool when empty, shuffle, and return
`shuffled.slice(0, min(count, shuffled.length))`. -/
def generatePlaceholderQuestions (rand : ℕ → ℕ) (count : ℕ)
    (category difficulty : String) : List Question :=
  let shuffled := shuffleArray rand (placeholderPool category difficulty)
  shuffled.take (min count shuffled.length)

theorem placeholderQuestions_nodup : placeholderQuestions.Nodup := by decide

/-- C7: for every random oracle, requested count, category and difficulty,
the fallback question set has no duplicate questions and has size exactly
`min(count, size of the pool after filtering)`; when the filter matches
nothing, the pool is the full unfiltered placeholder list. -/
theorem C7_placeholder_questions (rand : ℕ → ℕ) (count : ℕ)
    (category difficulty : String) :
    (generatePlaceholderQuestions rand count category difficulty).Nodup ∧
    (generatePlaceholderQuestions rand count category difficulty).length =
      min count (placeholderPool category difficulty).length ∧
    (filteredPlaceholder category difficulty = [] →
      placeholderPool category difficulty = placeholderQuestions) := by
  have hpool : (placeholderPool category difficulty).Nodup := by
    unfold placeholderPool
    by_cases h : (filteredPlaceholder category difficulty).isEmpty
    · rw [if_pos h]; exact placeholderQuestions_nodup
    · rw [if_neg h]
      unfold filteredPlaceholder
      by_cases h2 : difficulty ≠ "" ∧ difficulty ≠ "all"
      · rw [if_pos h2]
        refine List.Nodup.filter _ ?_
        by_cases h3 : category ≠ "" ∧ category ≠ "all"
        · rw [if_pos h3]; exact placeholderQuestions_nodup.filter _
        · rw [if_neg h3]; exact placeholderQuestions_nodup
      · rw [if_neg h2]
        by_cases h3 : category ≠ "" ∧ category ≠ "all"
        · rw [if_pos h3]; exact placeholderQuestions_nodup.filter _
        · rw [if_neg h3]; exact placeholderQuestions_nodup
  have hperm := shuffleArray_perm rand (placeholderPool category difficulty)
  refine ⟨?_, ?_, ?_⟩
  · exact (hperm.nodup_iff.mpr hpool).sublist (List.take_sublist _ _)
  · unfold generatePlaceholderQuestions
    rw [List.length_take, hperm.length_eq]
    omega
  · intro h
    unfold placeholderPool
    rw [if_pos (by rw [h]; rfl)]

/-- C7 witness: no placeholder question matches category `Math`, so the
unfiltered pool is used. -/
theorem C7_placeholder_questions_witness :
    (filteredPlaceholder "Math" "hard" = []) ∧
    placeholderPool "Math" "hard" = placeholderQuestions :=
  ⟨by decide, (C7_placeholder_questions (fun _ => 0) 3 "Math" "hard").2.2 (by decide)⟩

/-- A leaderboard entry (leaderboard.js 47-55 and 483-491). -/
structure LeaderboardUser where
  id : String
  username : String
  totalPoints : D
  quizzesCompleted : D
  averageScore : D
  rank : ℕ
  avatar : String
  joinedDate : String
  deriving DecidableEq, Repr

/-- `userId.slice(-4)`: the last four characters. -/
def jsSliceLast4 (s : String) : String := String.mk (s.data.drop (s.data.length - 4))

/-- `userId.charAt(0).toUpperCase()`. -/
def jsUpperFirst (s : String) : String := String.mk ((s.data.take 1).map Char.toUpper)

/-- The sort comparator of leaderboard.js line 506,
`(a, b) => b.totalPoints - a.totalPoints`: `a` may precede `b` exactly when
the comparator result is `≤ 0`, i.e. `b.totalPoints ≤ a.totalPoints`
(binary64 subtraction preserves the sign of the exact difference). -/
def lbLe (a b : LeaderboardUser) : Bool := decide (dLe b.totalPoints a.totalPoints)

/-- The mutation step of `updatePlaceholderUserScore` (leaderboard.js
479-503): add `newScore` to the first entry whose id matches, or append a
fresh entry.  `today` abstracts `new Date().toISOString().split('T')[0]`
(the wall clock is external); a fresh entry has no `rank` property until
re-ranking, modelled by 0. -/
def lbApplyScore (data : List LeaderboardUser) (userId : String)
    (newScore : D) (today : String) : List LeaderboardUser :=
  match data.findIdx? (fun u => u.id == userId) with
  | none =>
    data ++ [{ id := userId
               username := "User" ++ jsSliceLast4 userId
               totalPoints := newScore
               quizzesCompleted := intToD 1
               averageScore := newScore
               avatar := jsUpperFirst userId
               joinedDate := today
               rank := 0 }]
  | some i =>
    match data[i]? with
    | some u => data.set i
        { u with
          totalPoints := jsAdd u.totalPoints newScore
          quizzesCompleted := jsAdd u.quizzesCompleted (intToD 1)
          averageScore := intToD (jsRound (jsDiv (jsAdd u.totalPoints newScore)
            (jsAdd u.quizzesCompleted (intToD 1)))) }
    | none => data

/-- `updatePlaceholderUserScore` (leaderboard.js 477-512): apply the score
mutation, then re-sort by descending total points (ES2019
`Array.prototype.sort` is stable, and a stable sort for a total preorder is
unique, so stable `mergeSort` computes it) and assign `rank = index + 1`. -/
def updatePlaceholderUserScore (data : List LeaderboardUser) (userId : String)
    (newScore : D) (today : String) : List LeaderboardUser :=
  ((lbApplyScore data userId newScore today).mergeSort lbLe).mapIdx
    (fun i u => { u with rank := i + 1 })

theorem lbLe_trans (a b c : LeaderboardUser) (h1 : lbLe a b = true) (h2 : lbLe b c = true) :
    lbLe a c = true := by
  unfold lbLe at h1 h2 ⊢
  rw [decide_eq_true_eq] at h1 h2 ⊢
  rw [dLe_iff_val] at h1 h2 ⊢
  exact le_trans h2 h1

theorem lbLe_total (a b : LeaderboardUser) : (lbLe a b || lbLe b a) = true := by
  unfold lbLe
  rw [Bool.or_eq_true, decide_eq_true_eq, decide_eq_true_eq, dLe_iff_val, dLe_iff_val]
  exact le_total _ _

theorem rerank_mem (updated : List LeaderboardUser) (x : LeaderboardUser)
    (hx : x ∈ updated) :
    ∃ u ∈ (updated.mergeSort lbLe).mapIdx (fun i u => { u with rank := i + 1 }),
      u.id = x.id ∧ u.totalPoints = x.totalPoints := by
  have hx2 : x ∈ updated.mergeSort lbLe := ((updated.mergeSort_perm lbLe).mem_iff).mpr hx
  obtain ⟨n, hn⟩ := List.getElem?_of_mem hx2
  refine ⟨({ x with rank := n + 1 } : LeaderboardUser), ?_, rfl, rfl⟩
  have hget : ((updated.mergeSort lbLe).mapIdx (fun i u => { u with rank := i + 1 }))[n]? =
      some ({ x with rank := n + 1 } : LeaderboardUser) := by
    rw [List.getElem?_mapIdx, hn]
    rfl
  exact List.getElem?_mem hget

theorem rerank_sorted (updated : List LeaderboardUser) :
    List.Pairwise (fun a b => dLe b.totalPoints a.totalPoints)
      ((updated.mergeSort lbLe).mapIdx (fun i u => { u with rank := i + 1 })) := by
  have hs := List.sorted_mergeSort lbLe_trans lbLe_total updated
  have hs2 : List.Pairwise (fun a b => dLe b.totalPoints a.totalPoints)
      (updated.mergeSort lbLe) :=
    hs.imp (fun h => by
      rw [lbLe, decide_eq_true_eq] at h
      exact h)
  rw [List.pairwise_iff_getElem] at hs2 ⊢
  intro i j hi hj hij
  rw [List.length_mapIdx] at hi hj
  rw [List.getElem_mapIdx, List.getElem_mapIdx]
  exact hs2 i j hi hj hij

theorem rerank_rank (updated : List LeaderboardUser) (i : ℕ) (u : LeaderboardUser)
    (hu : ((updated.mergeSort lbLe).mapIdx (fun i u => { u with rank := i + 1 }))[i]? = some u) :
    u.rank = i + 1 := by
  rw [List.getElem?_mapIdx] at hu
  cases hs : (updated.mergeSort lbLe)[i]? with
  | none => simp [hs] at hu
  | some u0 =>
    rw [hs] at hu
    have hu2 : some ({ u0 with rank := i + 1 } : LeaderboardUser) = some u := hu
    rw [← Option.some_inj.mp hu2]

/-- C8: after every `updatePlaceholderUserScore` call on any fallback dataset
state, (1) the list is sorted in descending order of `totalPoints`, (2) every
entry's rank equals its 1-based position, and (3) the updated (or newly
created) user is present with `totalPoints` equal to its old total plus the
delta (binary64 addition), respectively to the delta itself for a fresh
entry; its position — hence its rank — is therefore determined by the sorted
order relative to all other entries.  (`findIdx?` guarantees the entry found
at index `i` satisfies `u₀.id = userId`.) -/
theorem C8_update_user_score (data : List LeaderboardUser) (userId : String)
    (newScore : D) (today : String) :
    List.Pairwise (fun a b => dLe b.totalPoints a.totalPoints)
      (updatePlaceholderUserScore data userId newScore today) ∧
    (∀ (i : ℕ) (u : LeaderboardUser),
      (updatePlaceholderUserScore data userId newScore today)[i]? = some u →
        u.rank = i + 1) ∧
    (data.findIdx? (fun u => u.id == userId) = none →
      ∃ u ∈ updatePlaceholderUserScore data userId newScore today,
        u.id = userId ∧ u.totalPoints = newScore) ∧
    (∀ (i : ℕ) (u₀ : LeaderboardUser),
      data.findIdx? (fun u => u.id == userId) = some i → data[i]? = some u₀ →
      ∃ u ∈ updatePlaceholderUserScore data userId newScore today,
        u.id = u₀.id ∧ u.totalPoints = jsAdd u₀.totalPoints newScore) := by
  refine ⟨rerank_sorted _, fun i u hu => rerank_rank _ i u hu, ?_, ?_⟩
  · intro hnone
    unfold updatePlaceholderUserScore
    have hx : ({ id := userId, username := "User" ++ jsSliceLast4 userId,
                 totalPoints := newScore, quizzesCompleted := intToD 1,
                 averageScore := newScore, rank := 0, avatar := jsUpperFirst userId,
                 joinedDate := today } : LeaderboardUser) ∈
        lbApplyScore data userId newScore today := by
      unfold lbApplyScore
      rw [hnone]
      exact List.mem_append_right data (List.mem_singleton.mpr rfl)
    obtain ⟨u, hu, hid, hpts⟩ := rerank_mem _ _ hx
    exact ⟨u, hu, hid, hpts⟩
  · intro i u₀ hfind hget
    unfold updatePlaceholderUserScore
    have hlen : i < data.length := by
      by_contra hc
      push_neg at hc
      rw [List.getElem?_eq_none hc] at hget
      exact Option.noConfusion hget
    have hx : ({ u₀ with
        totalPoints := jsAdd u₀.totalPoints newScore
        quizzesCompleted := jsAdd u₀.quizzesCompleted (intToD 1)
        averageScore := intToD (jsRound (jsDiv (jsAdd u₀.totalPoints newScore)
          (jsAdd u₀.quizzesCompleted (intToD 1)))) } : LeaderboardUser) ∈
        lbApplyScore data userId newScore today := by
      unfold lbApplyScore
      simp only [hfind, hget]
      have hset : (data.set i ({ u₀ with
          totalPoints := jsAdd u₀.totalPoints newScore
          quizzesCompleted := jsAdd u₀.quizzesCompleted (intToD 1)
          averageScore := intToD (jsRound (jsDiv (jsAdd u₀.totalPoints newScore)
            (jsAdd u₀.quizzesCompleted (intToD 1)))) } : LeaderboardUser))[i]? =
          some ({ u₀ with
            totalPoints := jsAdd u₀.totalPoints newScore
            quizzesCompleted := jsAdd u₀.quizzesCompleted (intToD 1)
            averageScore := intToD (jsRound (jsDiv (jsAdd u₀.totalPoints newScore)
              (jsAdd u₀.quizzesCompleted (intToD 1)))) } : LeaderboardUser) := by
        simp [hlen]
      exact List.getElem?_mem hset
    obtain ⟨u, hu, hid, hpts⟩ := rerank_mem _ _ hx
    exact ⟨u, hu, hid, hpts⟩

/-- C8 witness: update an absent user on a two-entry dataset. -/
theorem C8_update_user_score_witness :
    ([(⟨"1", "A", intToD 100, intToD 3, intToD 33, 1, "A", "d"⟩ : LeaderboardUser),
      ⟨"2", "B", intToD 50, intToD 2, intToD 25, 2, "B", "d"⟩].findIdx?
        (fun u => u.id == "3") = none) ∧
    ∃ u ∈ updatePlaceholderUserScore
        [⟨"1", "A", intToD 100, intToD 3, intToD 33, 1, "A", "d"⟩,
         ⟨"2", "B", intToD 50, intToD 2, intToD 25, 2, "B", "d"⟩] "3" (intToD 60) "today",
      u.id = "3" ∧ u.totalPoints = intToD 60 :=
  ⟨by decide,
   (C8_update_user_score
     [⟨"1", "A", intToD 100, intToD 3, intToD 33, 1, "A", "d"⟩,
      ⟨"2", "B", intToD 50, intToD 2, intToD 25, 2, "B", "d"⟩] "3" (intToD 60) "today").2.2.1
     (by decide)⟩

/-- The `currentQuiz` object (quiz.js 40-47); `id`, `sessionId` and
`startTime` are external identifiers/clock values and are omitted. -/
structure QuizMeta where
  category : String
  difficulty : String
  questionCount : ℕ
  timeLimit : D
  deriving DecidableEq, Repr

/-- The mutable fields of `QuizManager` (quiz.js 9-20).  `timer` (the
interval handle) is modelled by `timerRunning`; `pendingAdvances` counts the
`setTimeout` callbacks scheduled by `submitAnswer` (quiz.js 803-811) that
have not fired yet. -/
structure QuizState where
  currentQuiz : Option QuizMeta
  questions : List Question
  currentQuestionIndex : ℕ
  userAnswers : List AnswerRecord
  score : D
  timeRemaining : D
  timerRunning : Bool
  isQuizActive : Bool
  pendingAdvances : ℕ
  deriving DecidableEq, Repr

/-- `resetQuizState` (quiz.js 343-356).  Pending `setTimeout` callbacks are
not cancelled by the source, so `pendingAdvances` is kept. -/
def resetQuizState (s : QuizState) : QuizState :=
  { s with
    currentQuiz := none
    questions := []
    currentQuestionIndex := 0
    userAnswers := []
    score := intToD 0
    timeRemaining := intToD 0
    isQuizActive := false
    timerRunning := false }

/-- The freshly-constructed manager (quiz.js 9-20). -/
def initialQuizState : QuizState :=
  ⟨none, [], 0, [], intToD 0, intToD 0, false, false, 0⟩

/-- `getConsecutiveCorrectCount` (quiz.js 826-836): scan the answer list
backward from the most recent entry while the answers are correct. -/
def countLeadingCorrect : List AnswerRecord → ℕ
  | [] => 0
  | a :: rest => if a.isCorrect then countLeadingCorrect rest + 1 else 0

/-- `getConsecutiveCorrectCount` (quiz.js 826-836). -/
def getConsecutiveCorrectCount (answers : List AnswerRecord) : ℕ :=
  countLeadingCorrect answers.reverse

/-- `startQuiz` (quiz.js 29-75): reset, load a question set (loading is
external — the loaded list is a parameter of the transition), set the quiz
meta with `timeLimit = questionCount * 30`, activate, and start the
countdown. -/
def startQuiz (s : QuizState) (category difficulty : String) (questionCount : ℕ)
    (loaded : List Question) : QuizState :=
  { resetQuizState s with
    questions := loaded
    currentQuiz := some ⟨category, difficulty, questionCount,
      jsMul (intToD questionCount) (intToD 30)⟩
    isQuizActive := true
    timeRemaining := jsMul (intToD questionCount) (intToD 30)
    timerRunning := true }

/-- The result object of `calculateResults` (quiz.js 1021-1061); `quizId`,
`sessionId`, `startTime` and `completedAt` are external identifiers/clock
values and are omitted. -/
structure QuizResults where
  category : String
  difficulty : String
  totalQuestions : ℕ
  correctAnswers : ℕ
  incorrectAnswers : ℕ
  accuracy : D
  score : D
  maxPossiblePoints : D
  grade : Grade
  completionBonuses : List LineItem
  timeSpent : D
  timeLimit : D
  answers : List AnswerRecord
  deriving DecidableEq, Repr

/-- `calculateResults` (quiz.js 1021-1061), on the `scoreCalculator` path. -/
def calculateResults (s : QuizState) : QuizResults :=
  let correctAnswers := (s.userAnswers.filter (fun a => a.isCorrect)).length
  let totalQuestions := s.questions.length
  let timeLimit := (s.currentQuiz.map (fun q => q.timeLimit)).getD (intToD 0)
  let timeSpent := jsSub timeLimit s.timeRemaining
  let scoringResults := calculateTotalScore s.userAnswers
    ⟨(s.currentQuiz.map (fun q => q.category)).getD "",
     (s.currentQuiz.map (fun q => q.difficulty)).getD "", timeSpent, timeLimit⟩
  { category := (s.currentQuiz.map (fun q => q.category)).getD ""
    difficulty := (s.currentQuiz.map (fun q => q.difficulty)).getD ""
    totalQuestions := totalQuestions
    correctAnswers := correctAnswers
    incorrectAnswers := totalQuestions - correctAnswers
    accuracy := scoringResults.accuracy
    score := scoringResults.totalPoints
    maxPossiblePoints := scoringResults.maxPossiblePoints
    grade := scoringResults.grade
    completionBonuses := scoringResults.completionBonuses
    timeSpent := timeSpent
    timeLimit := timeLimit
    answers := s.userAnswers }

/-- `endQuiz` (quiz.js 842-867): when no quiz is active, return `null` and
change nothing; otherwise stop the timer, deactivate, and compute the
results (saving and rendering them are external side effects). -/
def endQuiz (s : QuizState) : Option QuizResults × QuizState :=
  if s.isQuizActive then
    (some (calculateResults { s with timerRunning := false, isQuizActive := false }),
     { s with timerRunning := false, isQuizActive := false })
  else (none, s)

/-- `submitAnswer` (quiz.js 732-820), up to the scheduling of the
advance callback: accepted only when a quiz is active and the current index
is within the question list; appends an answer record, adds the points to
the score, and schedules one deferred index advance (`setTimeout`,
quiz.js 803-811), counted in `pendingAdvances`. -/
def submitAnswer (s : QuizState) (answer : String) : QuizState :=
  if ¬ s.isQuizActive ∨ s.questions.length ≤ s.currentQuestionIndex then s
  else
    match s.questions[s.currentQuestionIndex]? with
    | none => s
    | some question =>
      let isCorrect := answer == question.correctAnswer
      let timeLimit := (s.currentQuiz.map (fun q => q.timeLimit)).getD (intToD 0)
      let timeSpentOnQuestion := jsSub (jsSub timeLimit s.timeRemaining)
        (match s.userAnswers.getLast? with
         | some prev => prev.timeSpent
         | none => intToD 0)
      let scoringResult := calculateAnswerPoints question isCorrect timeSpentOnQuestion
        (getConsecutiveCorrectCount s.userAnswers) false
      let record : AnswerRecord :=
        { questionId := question.id
          question := question.question
          selectedAnswer := answer
          correctAnswer := question.correctAnswer
          isCorrect := isCorrect
          points := scoringResult.finalPoints
          basePoints :=
            if dTruthy scoringResult.basePoints then scoringResult.basePoints
            else match question.points with
              | some p => if dTruthy p then p else intToD 10
              | none => intToD 10
          bonuses := scoringResult.bonuses
          penalties := scoringResult.penalties
          breakdown := scoringResult.breakdown
          timeSpent := jsSub timeLimit s.timeRemaining
          timeSpentOnQuestion := timeSpentOnQuestion
          difficulty := question.difficulty
          category := question.category
          explanation := question.explanation }
      { s with userAnswers := s.userAnswers ++ [record]
               score := jsAdd s.score scoringResult.finalPoints
               pendingAdvances := s.pendingAdvances + 1 }

/-- The `setTimeout` callback scheduled by `submitAnswer`
(quiz.js 803-811): increment the index unconditionally, and end the quiz if
the index has reached the question count.  It only runs when a callback is
pending. -/
def advanceTimeout (s : QuizState) : QuizState :=
  if s.pendingAdvances = 0 then s
  else
    let s1 := { s with pendingAdvances := s.pendingAdvances - 1
                       currentQuestionIndex := s.currentQuestionIndex + 1 }
    if s1.questions.length ≤ s1.currentQuestionIndex then (endQuiz s1).2 else s1

/-- One second of the countdown (quiz.js 361-373): decrement
`timeRemaining`; at `≤ 0`, force `endQuiz`. -/
def timerTick (s : QuizState) : QuizState :=
  if s.timerRunning then
    let s1 := { s with timeRemaining := jsSub s.timeRemaining (intToD 1) }
    if dLe s1.timeRemaining (intToD 0) then (endQuiz s1).2 else s1
  else s

/-- The events of the quiz session manager: the public operations plus the
two timer callbacks. -/
inductive QuizEvent where
  | start (category difficulty : String) (questionCount : ℕ) (loaded : List Question)
  | submit (answer : String)
  | advance
  | tick
  | stop

/-- The manager's transition function. -/
def stepQuiz (s : QuizState) (e : QuizEvent) : QuizState :=
  match e with
  | .start c d n loaded => startQuiz s c d n loaded
  | .submit a => submitAnswer s a
  | .advance => advanceTimeout s
  | .tick => timerTick s
  | .stop => (endQuiz s).2

/-- Run a sequence of events from the initial state. -/
def runQuiz (es : List QuizEvent) : QuizState := es.foldl stepQuiz initialQuizState

/-- C4 counterexample: the guard of `submitAnswer` checks only that the quiz
is active and the index is in range; the index advance happens in a
`setTimeout` callback two seconds later, so a second `submitAnswer` call
before the callback fires is accepted for the same question index.  After
`startQuiz` with one question and two immediate submissions, the answer list
has two records — longer than the question list — and both records answer
question index 0 (question id "1"). -/
theorem C4_double_submit_counterexample :
    ¬ ((runQuiz [.start "Geography" "easy" 1 (placeholderQuestions.take 1),
          .submit "Paris", .submit "Paris"]).userAnswers.length ≤
       (runQuiz [.start "Geography" "easy" 1 (placeholderQuestions.take 1),
          .submit "Paris", .submit "Paris"]).questions.length) ∧
    (runQuiz [.start "Geography" "easy" 1 (placeholderQuestions.take 1),
        .submit "Paris", .submit "Paris"]).userAnswers.map
      (fun a => a.questionId) = ["1", "1"] := by
  constructor
  · decide
  · decide

/-- The transition function under the UI discipline: the option buttons are
disabled as soon as an answer is submitted (quiz.js 873-899), so no second
submission can happen before the scheduled advance has run. -/
def stepQuizUI (s : QuizState) (e : QuizEvent) : QuizState :=
  match e with
  | .submit a => if s.pendingAdvances = 0 then submitAnswer s a else s
  | _ => stepQuiz s e

/-- Run a sequence of events under the UI discipline. -/
def runQuizUI (es : List QuizEvent) : QuizState := es.foldl stepQuizUI initialQuizState

/-- Machine invariant under the UI discipline: at most one advance is
pending, and the recorded question ids form an in-order sublist of the
prefix of question ids up to the next unanswered index. -/
def QuizInv (s : QuizState) : Prop :=
  s.pendingAdvances ≤ 1 ∧
  (s.userAnswers.map (fun a => a.questionId)).Sublist
    ((s.questions.take (s.currentQuestionIndex + s.pendingAdvances)).map (fun q => q.id))

theorem quizInv_initial : QuizInv initialQuizState := by
  constructor
  · decide
  · exact List.Sublist.refl []

theorem endQuiz_snd_fields (s : QuizState) :
    (endQuiz s).2.userAnswers = s.userAnswers ∧
    (endQuiz s).2.questions = s.questions ∧
    (endQuiz s).2.currentQuestionIndex = s.currentQuestionIndex ∧
    (endQuiz s).2.pendingAdvances = s.pendingAdvances := by
  unfold endQuiz
  by_cases h : s.isQuizActive
  · rw [if_pos h]
    exact ⟨rfl, rfl, rfl, rfl⟩
  · rw [if_neg h]
    exact ⟨rfl, rfl, rfl, rfl⟩

theorem submitAnswer_guarded_fields (s : QuizState) (answer : String) (question : Question)
    (hguard : ¬ (¬ s.isQuizActive = true ∨ s.questions.length ≤ s.currentQuestionIndex))
    (hq : s.questions[s.currentQuestionIndex]? = some question) :
    (submitAnswer s answer).pendingAdvances = s.pendingAdvances + 1 ∧
    (submitAnswer s answer).userAnswers.map (fun a => a.questionId) =
      s.userAnswers.map (fun a => a.questionId) ++ [question.id] ∧
    (submitAnswer s answer).questions = s.questions ∧
    (submitAnswer s answer).currentQuestionIndex = s.currentQuestionIndex := by
  unfold submitAnswer
  rw [if_neg hguard, hq]
  refine ⟨rfl, ?_, rfl, rfl⟩
  simp

theorem quizInv_step (s : QuizState) (e : QuizEvent) (h : QuizInv s) :
    QuizInv (stepQuizUI s e) := by
  obtain ⟨hp, hsub⟩ := h
  cases e with
  | start c d n loaded =>
    refine ⟨hp, ?_⟩
    show (List.map _ []).Sublist _
    exact List.nil_sublist _
  | submit a =>
    show QuizInv (if s.pendingAdvances = 0 then submitAnswer s a else s)
    by_cases hp0 : s.pendingAdvances = 0
    · rw [if_pos hp0]
      by_cases hguard : ¬ s.isQuizActive = true ∨ s.questions.length ≤ s.currentQuestionIndex
      · have hsame : submitAnswer s a = s := by
          unfold submitAnswer
          rw [if_pos hguard]
        rw [hsame]
        exact ⟨hp, hsub⟩
      · have hguard' := hguard
        push_neg at hguard'
        have hidx : s.currentQuestionIndex < s.questions.length := hguard'.2
        cases hq : s.questions[s.currentQuestionIndex]? with
        | none =>
          rw [List.getElem?_eq_none_iff] at hq
          omega
        | some question =>
          obtain ⟨h1, h2, h3, h4⟩ := submitAnswer_guarded_fields s a question hguard hq
          refine ⟨by rw [h1]; omega, ?_⟩
          rw [h1, h2, h3, h4, hp0]
          simp only [Nat.zero_add]
          rw [List.take_succ, hq]
          rw [hp0] at hsub
          simp only [Nat.add_zero] at hsub
          rw [List.map_append]
          refine List.Sublist.append hsub ?_
          simp
    · rw [if_neg hp0]
      exact ⟨hp, hsub⟩
  | advance =>
    show QuizInv (advanceTimeout s)
    unfold advanceTimeout
    by_cases hp0 : s.pendingAdvances = 0
    · rw [if_pos hp0]
      exact ⟨hp, hsub⟩
    · rw [if_neg hp0]
      have hpeq : s.pendingAdvances = 1 := by omega
      by_cases hend : s.questions.length ≤ s.currentQuestionIndex + 1
      · rw [if_pos hend]
        obtain ⟨h1, h2, h3, h4⟩ := endQuiz_snd_fields
          { s with pendingAdvances := s.pendingAdvances - 1
                   currentQuestionIndex := s.currentQuestionIndex + 1 }
        refine ⟨by rw [h4]; simp; omega, ?_⟩
        rw [h1, h2, h3, h4]
        show (s.userAnswers.map _).Sublist
          ((s.questions.take (s.currentQuestionIndex + 1 + (s.pendingAdvances - 1))).map _)
        rw [hpeq] at hsub ⊢
        simpa using hsub
      · rw [if_neg hend]
        refine ⟨by show s.pendingAdvances - 1 ≤ 1; omega, ?_⟩
        show (s.userAnswers.map _).Sublist
          ((s.questions.take (s.currentQuestionIndex + 1 + (s.pendingAdvances - 1))).map _)
        rw [hpeq] at hsub ⊢
        simpa using hsub
  | tick =>
    show QuizInv (timerTick s)
    unfold timerTick
    by_cases ht : s.timerRunning
    · rw [if_pos ht]
      by_cases hz : dLe (jsSub s.timeRemaining (intToD 1)) (intToD 0)
      · rw [if_pos hz]
        obtain ⟨h1, h2, h3, h4⟩ := endQuiz_snd_fields
          { s with timeRemaining := jsSub s.timeRemaining (intToD 1) }
        refine ⟨by rw [h4]; exact hp, ?_⟩
        rw [h1, h2, h3, h4]
        exact hsub
      · rw [if_neg hz]
        exact ⟨hp, hsub⟩
    · rw [if_neg ht]
      exact ⟨hp, hsub⟩
  | stop =>
    show QuizInv (endQuiz s).2
    obtain ⟨h1, h2, h3, h4⟩ := endQuiz_snd_fields s
    refine ⟨by rw [h4]; exact hp, ?_⟩
    rw [h1, h2, h3, h4]
    exact hsub

theorem quizInv_run (es : List QuizEvent) : QuizInv (runQuizUI es) := by
  unfold runQuizUI
  have hgen : ∀ (l : List QuizEvent) (s : QuizState), QuizInv s →
      QuizInv (l.foldl stepQuizUI s) := by
    intro l
    induction l with
    | nil => intro s h; exact h
    | cons e rest ih =>
      intro s h
      exact ih _ (quizInv_step s e h)
  exact hgen es initialQuizState quizInv_initial

/-- C4 amended: the claim holds once no second submission occurs before the
scheduled advance to the next question has run — which is the only flow the
UI permits, since every option button is disabled upon submission.  In every
state reachable under that discipline the answer list is never longer than
the question list, the recorded question ids form an in-order sublist of the
session's question ids (so each question index has at most one answer
record), and when the session's questions are pairwise distinct so are the
answered questions.  Without the discipline, `submitAnswer` accepts a second
call for the same index (see the counterexample). -/
theorem C4_session_invariant_amended (es : List QuizEvent) :
    (runQuizUI es).userAnswers.length ≤ (runQuizUI es).questions.length ∧
    ((runQuizUI es).userAnswers.map (fun a => a.questionId)).Sublist
      ((runQuizUI es).questions.map (fun q => q.id)) ∧
    (((runQuizUI es).questions.map (fun q => q.id)).Nodup →
      ((runQuizUI es).userAnswers.map (fun a => a.questionId)).Nodup) := by
  obtain ⟨hp, hsub⟩ := quizInv_run es
  have hsub2 : ((runQuizUI es).userAnswers.map (fun a => a.questionId)).Sublist
      ((runQuizUI es).questions.map (fun q => q.id)) :=
    hsub.trans ((List.take_sublist _ _).map _)
  refine ⟨?_, hsub2, ?_⟩
  · have := hsub2.length_le
    simpa using this
  · intro hnod
    exact hnod.sublist hsub2

/-- C4 witness: under the UI discipline, the double-submission trace records
only one answer for the single-question session. -/
theorem C4_session_invariant_witness :
    (((runQuizUI [.start "Geography" "easy" 1 (placeholderQuestions.take 1),
        .submit "Paris", .submit "Paris"]).questions.map (fun q => q.id)).Nodup) ∧
    (runQuizUI [.start "Geography" "easy" 1 (placeholderQuestions.take 1),
        .submit "Paris", .submit "Paris"]).userAnswers.length ≤
      (runQuizUI [.start "Geography" "easy" 1 (placeholderQuestions.take 1),
        .submit "Paris", .submit "Paris"]).questions.length ∧
    ((runQuizUI [.start "Geography" "easy" 1 (placeholderQuestions.take 1),
        .submit "Paris", .submit "Paris"]).userAnswers.map (fun a => a.questionId)).Nodup :=
  ⟨by decide,
   (C4_session_invariant_amended [.start "Geography" "easy" 1 (placeholderQuestions.take 1),
      .submit "Paris", .submit "Paris"]).1,
   (C4_session_invariant_amended [.start "Geography" "easy" 1 (placeholderQuestions.take 1),
      .submit "Paris", .submit "Paris"]).2.2 (by decide)⟩

/-- C10: calling `endQuiz` when no quiz is active returns `null` and leaves
the whole session state unchanged, and a second `endQuiz` call after any
`endQuiz` is such a no-op (the first call, whatever it did, leaves the quiz
inactive). -/
theorem C10_endQuiz_idempotent (s : QuizState) :
    (s.isQuizActive = false → endQuiz s = (none, s)) ∧
    endQuiz (endQuiz s).2 = (none, (endQuiz s).2) := by
  have key : ∀ t : QuizState, t.isQuizActive = false → endQuiz t = (none, t) := by
    intro t ht
    unfold endQuiz
    rw [if_neg (by rw [ht]; exact Bool.false_ne_true)]
  refine ⟨key s, key _ ?_⟩
  unfold endQuiz
  by_cases h : s.isQuizActive
  · rw [if_pos h]
  · rw [if_neg h]
    simpa using h

/-- C10 witness: `endQuiz` on the inactive initial state. -/
theorem C10_endQuiz_idempotent_witness :
    initialQuizState.isQuizActive = false ∧
    endQuiz initialQuizState = (none, initialQuizState) :=
  ⟨by decide, (C10_endQuiz_idempotent initialQuizState).1 (by decide)⟩

theorem rdCore_le_twice (A B : ℕ) (eoff : ℤ) (hA : 0 < A) (hB : 0 < B)
    (h1 : A ≤ 2^9000 * B) (h2 : B ≤ 2^9000 * A) :
    val (rdCore A B eoff) ≤ 2 * ((A:ℚ)/(B:ℚ) * (2:ℚ)^eoff) := by
  have hland := eFindN_landed A B 0 hA hB h1 h2
  have htB : 0 < (eFindN FUEL A B 0).2.1 := eFindN_B_pos FUEL A B 0 hB
  have htBQ : (0:ℚ) < ((eFindN FUEL A B 0).2.1 : ℚ) := by exact_mod_cast htB
  have herr := rnteDiv_err (eFindN FUEL A B 0).1 (eFindN FUEL A B 0).2.1 htB
  have hlb : (2:ℚ)^52 ≤ ((eFindN FUEL A B 0).1 : ℚ) / ((eFindN FUEL A B 0).2.1 : ℚ) := by
    rw [le_div_iff htBQ]
    exact_mod_cast hland.1
  have hub : (rnteDiv (eFindN FUEL A B 0).1 (eFindN FUEL A B 0).2.1 : ℚ) ≤
      2 * (((eFindN FUEL A B 0).1 : ℚ) / ((eFindN FUEL A B 0).2.1 : ℚ)) := by
    have h3 := (abs_sub_le_iff.mp herr).1
    have h4 : (1:ℚ)/2 ≤ ((eFindN FUEL A B 0).1 : ℚ) / ((eFindN FUEL A B 0).2.1 : ℚ) := by
      calc (1:ℚ)/2 ≤ (2:ℚ)^52 := by norm_num
        _ ≤ _ := hlb
    linarith
  rw [val_rdCore A B eoff hB]
  have hpow : (0:ℚ) < (2:ℚ)^(eoff - (eFindN FUEL A B 0).2.2) := by positivity
  calc (rnteDiv (eFindN FUEL A B 0).1 (eFindN FUEL A B 0).2.1 : ℚ) *
        (2:ℚ)^(eoff - (eFindN FUEL A B 0).2.2)
      ≤ 2 * (((eFindN FUEL A B 0).1 : ℚ) / ((eFindN FUEL A B 0).2.1 : ℚ)) *
        (2:ℚ)^(eoff - (eFindN FUEL A B 0).2.2) :=
        mul_le_mul_of_nonneg_right hub (le_of_lt hpow)
    _ = 2 * (((eFindN FUEL A B 0).1 : ℚ) / ((eFindN FUEL A B 0).2.1 : ℚ) *
        (2:ℚ)^(-(eFindN FUEL A B 0).2.2)) * (2:ℚ)^eoff := by
        rw [sub_eq_add_neg, add_comm, zpow_add₀ (by norm_num : (2:ℚ) ≠ 0)]
        ring
    _ = 2 * ((A:ℚ)/(B:ℚ)) * (2:ℚ)^eoff := by rw [eFindN_value A B hB]
    _ = 2 * ((A:ℚ)/(B:ℚ) * (2:ℚ)^eoff) := by ring

theorem rdQ_le_twice (n d : ℤ) (eoff : ℤ) (hn : 0 ≤ n) (hd : 0 < d)
    (h1 : n.natAbs ≤ 2^9000 * d.natAbs) (h2 : n ≠ 0 → d.natAbs ≤ 2^9000 * n.natAbs) :
    val (rdQ n d eoff) ≤ 2 * ((n:ℚ)/(d:ℚ) * (2:ℚ)^eoff) := by
  by_cases hz : n = 0
  · subst hz
    rw [rdQ, if_pos (Or.inl rfl)]
    show val ⟨0, 0⟩ ≤ _
    unfold val
    simp
  · have hnpos : 0 < n := by omega
    rw [rdQ, if_neg (by omega), if_neg (by omega)]
    have hle := rdCore_le_twice n.natAbs d.natAbs eoff (by omega) (by omega) h1 (h2 hz)
    have hcn : ((n.natAbs : ℕ) : ℚ) = (n : ℚ) := by
      obtain ⟨k, rfl⟩ := Int.eq_ofNat_of_zero_le (le_of_lt hnpos)
      simp
    have hcd : ((d.natAbs : ℕ) : ℚ) = (d : ℚ) := by
      obtain ⟨k, rfl⟩ := Int.eq_ofNat_of_zero_le (le_of_lt hd)
      simp
    rwa [hcn, hcd] at hle

theorem rdQ_m_le (n d : ℤ) (eoff : ℤ) (hn : 0 ≤ n) (hd : 0 < d)
    (h1 : n.natAbs ≤ 2^9000 * d.natAbs) (h2 : n ≠ 0 → d.natAbs ≤ 2^9000 * n.natAbs) :
    (rdQ n d eoff).m ≤ 2^53 := by
  by_cases hz : n = 0
  · subst hz
    rw [rdQ, if_pos (Or.inl rfl)]
    norm_num
  · rw [rdQ, if_neg (by omega), if_neg (by omega)]
    have hland := eFindN_landed n.natAbs d.natAbs 0 (by omega) (by omega) h1 (h2 hz)
    have htB : 0 < (eFindN FUEL n.natAbs d.natAbs 0).2.1 :=
      eFindN_B_pos FUEL n.natAbs d.natAbs 0 (by omega)
    have hub := rnteDiv_landed_ub (eFindN FUEL n.natAbs d.natAbs 0).1
      (eFindN FUEL n.natAbs d.natAbs 0).2.1 htB hland.2
    show ((rnteDiv (eFindN FUEL n.natAbs d.natAbs 0).1
      (eFindN FUEL n.natAbs d.natAbs 0).2.1 : ℕ) : ℤ) ≤ 2^53
    exact_mod_cast hub

theorem val_rdD_le_twice (z : D) (hm : 0 ≤ z.m) (hb : z.m ≤ 2^9000) :
    val (rdD z) ≤ 2 * val z := by
  have h1 : z.m.natAbs ≤ 2^9000 * (1:ℤ).natAbs := by
    have h2 : (z.m.natAbs : ℤ) ≤ (2:ℤ)^9000 := by rwa [Int.natAbs_of_nonneg hm]
    rw [show ((2:ℤ)^9000) = ((2^9000 : ℕ) : ℤ) from (Nat.cast_pow 2 9000).symm] at h2
    have h4 : z.m.natAbs ≤ 2^9000 := Int.ofNat_le.mp h2
    rw [Int.natAbs_one, Nat.mul_one]
    exact h4
  have h2 : z.m ≠ 0 → (1:ℤ).natAbs ≤ 2^9000 * z.m.natAbs := by
    intro hne
    have hpos : z.m.natAbs ≠ 0 := Int.natAbs_ne_zero.mpr hne
    rw [Int.natAbs_one]
    exact Nat.one_le_iff_ne_zero.mpr
      (Nat.mul_ne_zero (pow_ne_zero 9000 (by norm_num : (2:ℕ) ≠ 0)) hpos)
  have h := rdQ_le_twice z.m 1 z.e hm (by norm_num) h1 h2
  calc val (rdD z) ≤ 2 * ((z.m:ℚ)/((1:ℤ):ℚ) * (2:ℚ)^z.e) := h
    _ = 2 * val z := by unfold val; norm_num

theorem val_rdD_dyadic (z : D) (c : ℤ) (k : ℕ) (hval : val z = (c:ℚ)/2^k)
    (hc : c.natAbs ≤ 2^53) : val (rdD z) = (c:ℚ)/2^k := by
  by_cases hz : z.m = 0
  · have hv0 : val z = 0 := by unfold val; rw [hz]; simp
    have hc0 : (c:ℚ) = 0 := by
      have h2 : (c:ℚ)/2^k = 0 := by rw [← hval, hv0]
      have h3 : ((2:ℚ)^k) ≠ 0 := by positivity
      field_simp at h2
      exact_mod_cast h2
    show val (rdQ z.m 1 z.e) = _
    rw [hz, rdQ_zero_left]
    unfold val
    rw [hc0]
    simp
  · rcases le_or_lt 0 (z.e + k) with hek | hek
    · have hqe : (z.m : ℚ) * (2:ℚ)^((z.e + k).toNat) = (c:ℚ) := by
        have h1 : (2:ℚ)^((z.e + k).toNat) = (2:ℚ)^(z.e + (k:ℤ)) := by
          rw [← zpow_natCast (2:ℚ) (z.e + k).toNat, Int.toNat_of_nonneg hek]
        rw [h1, zpow_add₀ (by norm_num : (2:ℚ) ≠ 0), zpow_natCast]
        have h2 : (z.m : ℚ) * (2:ℚ)^z.e = (c:ℚ)/2^k := hval
        rw [← mul_assoc] at *
        rw [h2]
        field_simp
      have hint : z.m * 2^((z.e + k).toNat) = c := by exact_mod_cast hqe
      have hbound : z.m.natAbs ≤ 2^53 := by
        have h3 : z.m.natAbs * 2^((z.e + k).toNat) = c.natAbs := by
          calc z.m.natAbs * 2^((z.e + k).toNat)
              = z.m.natAbs * ((2:ℤ)^((z.e + k).toNat)).natAbs := by
                congr 1
                simp [Int.natAbs_pow]
            _ = (z.m * 2^((z.e + k).toNat)).natAbs := (Int.natAbs_mul _ _).symm
            _ = c.natAbs := by rw [hint]
        have h4 : z.m.natAbs ≤ z.m.natAbs * 2^((z.e + k).toNat) :=
          Nat.le_mul_of_pos_right _ (Nat.pos_pow_of_pos _ (by norm_num))
        omega
      show val (rdQ z.m 1 z.e) = _
      rw [rdQ_exact z.m z.e z.m 0 (by ring) hbound]
      calc (z.m : ℚ) * (2:ℚ)^z.e = val z := rfl
        _ = (c:ℚ)/2^k := hval
    · have hqe : (z.m : ℚ) = (c:ℚ) * (2:ℚ)^((-(z.e + k)).toNat) := by
        have h1 : (2:ℚ)^((-(z.e + k)).toNat) = (2:ℚ)^(-(z.e + (k:ℤ))) := by
          rw [← zpow_natCast (2:ℚ) (-(z.e + k)).toNat, Int.toNat_of_nonneg (by omega : 0 ≤ -(z.e + (k:ℤ)))]
        rw [h1]
        have h2 : (z.m : ℚ) * (2:ℚ)^z.e = (c:ℚ)/2^k := hval
        have h3 : (2:ℚ)^z.e ≠ 0 := by positivity
        rw [neg_add, zpow_add₀ (by norm_num : (2:ℚ) ≠ 0), zpow_neg, zpow_neg, zpow_natCast]
        rw [show (c:ℚ) * (((2:ℚ)^z.e)⁻¹ * ((2:ℚ)^(k:ℕ))⁻¹) =
          (c:ℚ) / 2^k * ((2:ℚ)^z.e)⁻¹ from by ring]
        rw [← h2]
        field_simp
      have hint : z.m = c * 2^((-(z.e + k)).toNat) := by exact_mod_cast hqe
      show val (rdQ z.m 1 z.e) = _
      rw [rdQ_exact z.m z.e c ((-(z.e + k)).toNat) hint hc]
      calc (z.m : ℚ) * (2:ℚ)^z.e = val z := rfl
        _ = (c:ℚ)/2^k := hval

theorem val_jsAdd_int (x y : D) (a b : ℤ) (hx : val x = (a:ℚ)) (hy : val y = (b:ℚ))
    (hb : (a + b).natAbs ≤ 2^53) : val (jsAdd x y) = ((a + b : ℤ) : ℚ) := by
  have hval : val (dAddExact x y) = ((a + b : ℤ):ℚ)/2^(0:ℕ) := by
    rw [val_dAddExact, hx, hy]
    push_cast
    ring
  have h := val_rdD_dyadic (dAddExact x y) (a + b) 0 hval hb
  rw [show jsAdd x y = rdD (dAddExact x y) from rfl, h]
  norm_num

theorem val_jsSub_int (x y : D) (a b : ℤ) (hx : val x = (a:ℚ)) (hy : val y = (b:ℚ))
    (hb : (a - b).natAbs ≤ 2^53) : val (jsSub x y) = ((a - b : ℤ) : ℚ) := by
  have hval : val (dAddExact x (dNeg y)) = ((a - b : ℤ):ℚ)/2^(0:ℕ) := by
    rw [val_dAddExact, val_dNeg, hx, hy]
    push_cast
    ring
  have h := val_rdD_dyadic (dAddExact x (dNeg y)) (a - b) 0 hval hb
  rw [show jsSub x y = rdD (dAddExact x (dNeg y)) from rfl, h]
  norm_num

theorem natAbs_ratio_left (n : ℤ) (hm : 0 ≤ n) (hb : n ≤ 2^9000) :
    n.natAbs ≤ 2^9000 * (1:ℤ).natAbs := by
  have h2 : (n.natAbs : ℤ) ≤ (2:ℤ)^9000 := by rwa [Int.natAbs_of_nonneg hm]
  rw [show ((2:ℤ)^9000) = ((2^9000 : ℕ) : ℤ) from (Nat.cast_pow 2 9000).symm] at h2
  have h4 : n.natAbs ≤ 2^9000 := Int.ofNat_le.mp h2
  rw [Int.natAbs_one, Nat.mul_one]
  exact h4

theorem natAbs_ratio_right (n : ℤ) (hne : n ≠ 0) : (1:ℤ).natAbs ≤ 2^9000 * n.natAbs := by
  rw [Int.natAbs_one]
  exact Nat.one_le_iff_ne_zero.mpr
    (Nat.mul_ne_zero (pow_ne_zero 9000 (by norm_num : (2:ℕ) ≠ 0))
      (Int.natAbs_ne_zero.mpr hne))

theorem natAbs_ratio_div (n d : ℤ) (hn : 0 ≤ n) (hn53 : n ≤ 2^53) (hd : 1 ≤ d) :
    n.natAbs ≤ 2^9000 * d.natAbs := by
  have h1 : n.natAbs ≤ 2^53 := by omega
  have h2 : (1:ℕ) ≤ d.natAbs := by omega
  calc n.natAbs ≤ 2^53 := h1
    _ ≤ 2^9000 := Nat.pow_le_pow_right (by norm_num) (by norm_num)
    _ = 2^9000 * 1 := (Nat.mul_one _).symm
    _ ≤ 2^9000 * d.natAbs := Nat.mul_le_mul_left _ h2

theorem natAbs_ratio_div_right (n d : ℤ) (hd0 : 1 ≤ d) (hd : d ≤ 2^53) :
    n ≠ 0 → d.natAbs ≤ 2^9000 * n.natAbs := by
  intro hne
  have h1 : d.natAbs ≤ 2^53 := by omega
  have h2 : (1:ℕ) ≤ n.natAbs := by
    have := Int.natAbs_ne_zero.mpr hne
    omega
  calc d.natAbs ≤ 2^53 := h1
    _ ≤ 2^9000 := Nat.pow_le_pow_right (by norm_num) (by norm_num)
    _ = 2^9000 * 1 := (Nat.mul_one _).symm
    _ ≤ 2^9000 * n.natAbs := Nat.mul_le_mul_left _ h2

theorem natAbs_ratio_mul (a b : ℤ) (ha0 : 0 ≤ a) (ha : a ≤ 2^53) (hb0 : 0 ≤ b)
    (hb : b ≤ 2^53) : (a * b).natAbs ≤ 2^9000 * (1:ℤ).natAbs := by
  rw [Int.natAbs_one, Nat.mul_one, Int.natAbs_mul]
  have h1 : a.natAbs ≤ 2^53 := by omega
  have h2 : b.natAbs ≤ 2^53 := by omega
  calc a.natAbs * b.natAbs ≤ 2^53 * 2^53 := Nat.mul_le_mul h1 h2
    _ = 2^106 := by rw [← pow_add]
    _ ≤ 2^9000 := Nat.pow_le_pow_right (by norm_num) (by norm_num)

theorem rdD_m_le (z : D) (hm : 0 ≤ z.m) (hb : z.m ≤ 2^9000) : (rdD z).m ≤ 2^53 :=
  rdQ_m_le z.m 1 z.e hm (by norm_num) (natAbs_ratio_left z.m hm hb)
    (fun h => natAbs_ratio_right z.m h)

theorem D_m_le_pow (z : D) (hm : 0 ≤ z.m) (he : -2000 ≤ z.e)
    (hv : val z ≤ (2:ℚ)^(20:ℤ)) : z.m ≤ 2^9000 := by
  have h1 : (z.m:ℚ) = val z * (2:ℚ)^(-z.e) := by
    unfold val
    rw [mul_assoc, ← zpow_add₀ (by norm_num : (2:ℚ) ≠ 0)]
    simp
  have hv0 : 0 ≤ val z := val_nonneg_of_m z hm
  have h2 : (2:ℚ)^(-z.e) ≤ (2:ℚ)^(2000:ℤ) := by
    apply zpow_le_zpow_right₀ (by norm_num : (1:ℚ) ≤ 2)
    omega
  have h3 : (z.m:ℚ) ≤ (2:ℚ)^(20:ℤ) * (2:ℚ)^(2000:ℤ) := by
    rw [h1]
    exact mul_le_mul hv h2 (by positivity) (by positivity)
  have h4 : (2:ℚ)^(20:ℤ) * (2:ℚ)^(2000:ℤ) ≤ (2:ℚ)^(9000:ℤ) := by
    rw [← zpow_add₀ (by norm_num : (2:ℚ) ≠ 0)]
    apply zpow_le_zpow_right₀ (by norm_num : (1:ℚ) ≤ 2)
    norm_num
  have h5 : (z.m:ℚ) ≤ ((2^9000 : ℤ):ℚ) := by
    calc (z.m:ℚ) ≤ (2:ℚ)^(9000:ℤ) := le_trans h3 h4
      _ = ((2^9000 : ℤ):ℚ) := by push_cast; norm_num
  exact_mod_cast h5

/-- The streak bonus of `calculateAnswerPoints`:
`Math.floor(basePoints * 1.5 - basePoints)` (scoring.js line 37). -/
def streakAmount (bp : D) : ℤ := jsFloor (jsSub (jsMul bp lit15) bp)

/-- The difficulty bonus: `Math.floor(basePoints * 0.2)` (scoring.js line 59). -/
def difficultyAmount (bp : D) : ℤ := jsFloor (jsMul bp lit02)

/-- The perfect-accuracy bonus: `Math.floor(basePoints * 0.5)` (scoring.js line 70). -/
def perfectAmount (bp : D) : ℤ := jsFloor (jsMul bp lit05)

theorem streakAmount_intToD (B : ℕ) (hB : B ≤ 2^48) :
    streakAmount (intToD B) = ((B / 2 : ℕ) : ℤ) := by
  unfold streakAmount
  have hmul : val (jsMul (intToD (B:ℤ)) lit15) = 3 * (B:ℚ) / 2 := by
    show val (rdQ ((B:ℤ) * 3) 1 (0 + (-1))) = _
    rw [rdQ_exact ((B:ℤ) * 3) (0 + (-1)) ((B:ℤ) * 3) 0 (by ring) (by omega)]
    rw [show ((0:ℤ) + (-1)) = -((1:ℕ):ℤ) from by norm_num, zpow_neg, zpow_natCast]
    push_cast
    ring
  have hz : val (dAddExact (jsMul (intToD (B:ℤ)) lit15) (dNeg (intToD (B:ℤ)))) =
      ((B:ℤ):ℚ)/2^(1:ℕ) := by
    rw [val_dAddExact, val_dNeg, val_intToD, hmul]
    push_cast
    ring
  have hsub : val (jsSub (jsMul (intToD (B:ℤ)) lit15) (intToD (B:ℤ))) = ((B:ℤ):ℚ)/2^(1:ℕ) :=
    val_rdD_dyadic _ (B:ℤ) 1 hz (by omega)
  rw [jsFloor_val, hsub]
  rw [show ((B:ℤ):ℚ)/2^(1:ℕ) = (B:ℚ)/2 from by push_cast; ring]
  exact floor_natCast_div_two B

theorem perfectAmount_intToD (B : ℕ) (hB : B ≤ 2^48) :
    perfectAmount (intToD B) = ((B / 2 : ℕ) : ℤ) := by
  unfold perfectAmount
  rw [jsFloor_jsMul_lit05 _ (by show ((B:ℤ)).natAbs ≤ 2^53; omega)]
  rw [val_intToD]
  rw [show (((B:ℤ)):ℚ) = (B:ℚ) from by push_cast; ring]
  exact floor_natCast_div_two B

theorem difficultyAmount_bounds (B : ℕ) (hB : B ≤ 2^48) :
    0 ≤ difficultyAmount (intToD B) ∧ difficultyAmount (intToD B) ≤ (B:ℤ) := by
  constructor
  · exact jsFloor_nonneg _ (jsMul_m_nonneg _ _ (by show (0:ℤ) ≤ (B:ℤ); omega)
      (by norm_num [lit02]))
  · unfold difficultyAmount
    rw [jsFloor_val]
    have hBZ0 : (0:ℤ) ≤ (B:ℤ) := by omega
    have hBZ53 : (B:ℤ) ≤ 2^53 := by omega
    have hL0 : (0:ℤ) ≤ 3602879701896397 := by norm_num
    have hL53 : (3602879701896397:ℤ) ≤ 2^53 := by norm_num
    have h := rdQ_le_twice ((B:ℤ) * 3602879701896397) 1 (0 + (-54)) (mul_nonneg hBZ0 hL0)
      (by norm_num) (natAbs_ratio_mul (B:ℤ) _ hBZ0 hBZ53 hL0 hL53)
      (fun hh => natAbs_ratio_right _ hh)
    have hub : val (jsMul (intToD (B:ℤ)) lit02) ≤ (B:ℚ) := by
      show val (rdQ ((B:ℤ) * 3602879701896397) 1 (0 + (-54))) ≤ _
      refine le_trans h ?_
      rw [show ((0:ℤ) + (-54)) = -((54:ℕ):ℤ) from by norm_num, zpow_neg, zpow_natCast]
      rw [show (2:ℚ) * ((((B:ℤ) * 3602879701896397 : ℤ):ℚ)/(((1:ℤ)):ℚ) * ((2:ℚ)^(54:ℕ))⁻¹) =
        (B:ℚ) * (3602879701896397 * 2 / 2^54) from by push_cast; ring]
      have hle1 : (3602879701896397:ℚ) * 2 / 2^54 ≤ 1 := by norm_num
      have hBQ0 : (0:ℚ) ≤ (B:ℚ) := by positivity
      nlinarith
    calc ⌊val (jsMul (intToD (B:ℤ)) lit02)⌋ ≤ ⌊(B:ℚ)⌋ := Int.floor_le_floor hub
      _ = ((B:ℕ):ℤ) := Int.floor_natCast B

theorem calculateSpeedBonus_intToD (B : ℕ) (ts : D) (diff : String)
    (hB : B ≤ 2^48) (hts : 0 ≤ ts.m) (hte : -2000 ≤ ts.e) :
    ∃ k : ℤ, calculateSpeedBonus (intToD B) ts diff = intToD k ∧ 0 ≤ k ∧
      k ≤ ((16 * B : ℕ) : ℤ) := by
  obtain ⟨T, hTeq, hT1, hT2⟩ : ∃ T : ℤ,
      (if diff = "easy" then intToD 10 else if diff = "medium" then intToD 15
        else if diff = "hard" then intToD 20 else intToD 15) = intToD T ∧
      10 ≤ T ∧ T ≤ 20 := by
    by_cases h1 : diff = "easy"
    · refine ⟨10, ?_, by norm_num, by norm_num⟩
      rw [if_pos h1]
    · by_cases h2 : diff = "medium"
      · refine ⟨15, ?_, by norm_num, by norm_num⟩
        rw [if_neg h1, if_pos h2]
      · by_cases h3 : diff = "hard"
        · refine ⟨20, ?_, by norm_num, by norm_num⟩
          rw [if_neg h1, if_neg h2, if_pos h3]
        · refine ⟨15, ?_, by norm_num, by norm_num⟩
          rw [if_neg h1, if_neg h2, if_neg h3]
  have hcsb : calculateSpeedBonus (intToD (B:ℤ)) ts diff =
      (if dLe ts (intToD T) then
        intToD (jsFloor (jsMul (jsMul (intToD (B:ℤ))
          (jsDiv (jsSub (intToD T) ts) (intToD T))) lit03))
      else intToD 0) := by
    unfold calculateSpeedBonus
    simp only []
    rw [hTeq]
  rw [hcsb]
  by_cases hcase : dLe ts (intToD T)
  · rw [if_pos hcase]
    set z := dAddExact (intToD T) (dNeg ts) with hzdef
    set Sd := jsSub (intToD T) ts with hSdef
    set R := jsDiv Sd (intToD T) with hRdef
    set X := jsMul (intToD (B:ℤ)) R with hXdef
    set P := jsMul X lit03 with hPdef
    have hTQ10 : (10:ℚ) ≤ (T:ℚ) := by exact_mod_cast hT1
    have hTQ20 : (T:ℚ) ≤ 20 := by exact_mod_cast hT2
    have htsv0 : 0 ≤ val ts := val_nonneg_of_m ts hts
    have htsle : val ts ≤ (T:ℚ) := by
      have h := (dLe_iff_val ts (intToD T)).mp hcase
      rwa [val_intToD] at h
    have hzval : val z = (T:ℚ) - val ts := by
      rw [hzdef, val_dAddExact, val_dNeg, val_intToD]
      ring
    have hzv0 : 0 ≤ val z := by rw [hzval]; linarith
    have hzv20 : val z ≤ (2:ℚ)^(20:ℤ) := by
      rw [hzval, show (2:ℚ)^(20:ℤ) = 1048576 from by norm_num]
      linarith
    have hzm0 : 0 ≤ z.m := (val_m_nonneg z).mpr hzv0
    have hze : -2000 ≤ z.e := by
      rw [hzdef]
      show -2000 ≤ min (0:ℤ) ts.e
      omega
    have hzm9000 : z.m ≤ 2^9000 := D_m_le_pow z hzm0 hze hzv20
    have hSrdD : Sd = rdD z := by
      rw [hSdef, hzdef]
      rfl
    have hSv0 : 0 ≤ val Sd := by
      rw [hSrdD]
      exact val_nonneg_of_m _ (rdQ_m_nonneg z.m 1 z.e hzm0 (by norm_num))
    have hSv : val Sd ≤ 40 := by
      rw [hSrdD]
      have h := val_rdD_le_twice z hzm0 hzm9000
      have h2 : val z ≤ 20 := by rw [hzval]; linarith
      linarith
    have hSm0 : 0 ≤ Sd.m := (val_m_nonneg Sd).mpr hSv0
    have hSm53 : Sd.m ≤ 2^53 := by
      rw [hSrdD]
      exact rdD_m_le z hzm0 hzm9000
    have hRrdQ : R = rdQ Sd.m T (Sd.e - 0) := by
      rw [hRdef]
      rfl
    have hRm0 : 0 ≤ R.m := by
      rw [hRrdQ]
      exact rdQ_m_nonneg _ _ _ hSm0 (by omega)
    have hRm53 : R.m ≤ 2^53 := by
      rw [hRrdQ]
      exact rdQ_m_le Sd.m T _ hSm0 (by omega)
        (natAbs_ratio_div Sd.m T hSm0 hSm53 (by omega))
        (natAbs_ratio_div_right Sd.m T (by omega) (by omega))
    have hRv0 : 0 ≤ val R := val_nonneg_of_m R hRm0
    have hRv8 : val R ≤ 8 := by
      rw [hRrdQ]
      have h := rdQ_le_twice Sd.m T (Sd.e - 0) hSm0 (by omega)
        (natAbs_ratio_div Sd.m T hSm0 hSm53 (by omega))
        (natAbs_ratio_div_right Sd.m T (by omega) (by omega))
      rw [show (2:ℚ)^(Sd.e - 0) = (2:ℚ)^Sd.e from by rw [sub_zero]] at h
      rw [show (Sd.m:ℚ)/(T:ℚ) * (2:ℚ)^Sd.e = val Sd / (T:ℚ) from by unfold val; ring] at h
      have hTpos : (0:ℚ) < (T:ℚ) := by linarith
      have hdiv : val Sd / (T:ℚ) ≤ 4 := by
        rw [div_le_iff hTpos]
        linarith
      linarith
    have hBZ0 : (0:ℤ) ≤ (B:ℤ) := by omega
    have hBZ53 : (B:ℤ) ≤ 2^53 := by
      have h : (B:ℤ) ≤ ((2^48 : ℕ) : ℤ) := by exact_mod_cast hB
      omega
    have hXrdQ : X = rdQ ((B:ℤ) * R.m) 1 (0 + R.e) := by
      rw [hXdef]
      rfl
    have hXm0 : 0 ≤ X.m := by
      rw [hXrdQ]
      exact rdQ_m_nonneg _ _ _ (mul_nonneg hBZ0 hRm0) (by norm_num)
    have hXm53 : X.m ≤ 2^53 := by
      rw [hXrdQ]
      exact rdQ_m_le _ 1 _ (mul_nonneg hBZ0 hRm0) (by norm_num)
        (natAbs_ratio_mul (B:ℤ) R.m hBZ0 hBZ53 hRm0 hRm53)
        (fun h => natAbs_ratio_right _ h)
    have hXv0 : 0 ≤ val X := val_nonneg_of_m X hXm0
    have hXv : val X ≤ 16 * (B:ℚ) := by
      rw [hXrdQ]
      have h := rdQ_le_twice ((B:ℤ) * R.m) 1 (0 + R.e) (mul_nonneg hBZ0 hRm0) (by norm_num)
        (natAbs_ratio_mul (B:ℤ) R.m hBZ0 hBZ53 hRm0 hRm53)
        (fun hh => natAbs_ratio_right _ hh)
      rw [show (2:ℚ)^((0:ℤ) + R.e) = (2:ℚ)^R.e from by rw [zero_add]] at h
      rw [show (((B:ℤ) * R.m : ℤ):ℚ)/(((1:ℤ)):ℚ) * (2:ℚ)^R.e = (B:ℚ) * val R from by
        unfold val; push_cast; ring] at h
      have hBQ0 : (0:ℚ) ≤ (B:ℚ) := by positivity
      nlinarith
    have hL0 : (0:ℤ) ≤ 5404319552844595 := by norm_num
    have hL53 : (5404319552844595:ℤ) ≤ 2^53 := by norm_num
    have hPrdQ : P = rdQ (X.m * 5404319552844595) 1 (X.e + (-54)) := by
      rw [hPdef]
      rfl
    have hPm0 : 0 ≤ P.m := by
      rw [hPrdQ]
      exact rdQ_m_nonneg _ _ _ (mul_nonneg hXm0 hL0) (by norm_num)
    have hPv : val P ≤ 16 * (B:ℚ) := by
      rw [hPrdQ]
      have h := rdQ_le_twice (X.m * 5404319552844595) 1 (X.e + (-54))
        (mul_nonneg hXm0 hL0) (by norm_num)
        (natAbs_ratio_mul X.m _ hXm0 hXm53 hL0 hL53)
        (fun hh => natAbs_ratio_right _ hh)
      rw [show ((X.m * 5404319552844595 : ℤ):ℚ)/(((1:ℤ)):ℚ) * (2:ℚ)^(X.e + (-54)) =
          val X * ((5404319552844595:ℚ) * (2:ℚ)^((-54):ℤ)) from by
        unfold val
        rw [zpow_add₀ (by norm_num : (2:ℚ) ≠ 0)]
        push_cast
        ring] at h
      have hL : (5404319552844595:ℚ) * (2:ℚ)^((-54):ℤ) ≤ 1/2 := by
        rw [show ((-54):ℤ) = -((54:ℕ):ℤ) from by norm_num, zpow_neg, zpow_natCast,
          ← div_eq_mul_inv, div_le_iff (by positivity : (0:ℚ) < (2:ℚ)^(54:ℕ))]
        norm_num
      have hLQ0 : (0:ℚ) ≤ (5404319552844595:ℚ) * (2:ℚ)^((-54):ℤ) := by positivity
      have h2 : val X * ((5404319552844595:ℚ) * (2:ℚ)^((-54):ℤ)) ≤ val X * (1/2) :=
        mul_le_mul_of_nonneg_left hL hXv0
      calc val (rdQ (X.m * 5404319552844595) 1 (X.e + (-54)))
          ≤ 2 * (val X * ((5404319552844595:ℚ) * (2:ℚ)^((-54):ℤ))) := h
        _ ≤ 2 * (val X * (1/2)) := by linarith
        _ = val X := by ring
        _ ≤ 16 * (B:ℚ) := hXv
    refine ⟨jsFloor P, rfl, jsFloor_nonneg P hPm0, ?_⟩
    rw [jsFloor_val]
    have hP16 : val P ≤ ((16 * B : ℕ):ℚ) := by
      push_cast
      linarith
    calc ⌊val P⌋ ≤ ⌊((16 * B : ℕ):ℚ)⌋ := Int.floor_le_floor hP16
      _ = ((16 * B : ℕ):ℤ) := Int.floor_natCast _
  · rw [if_neg hcase]
    exact ⟨0, rfl, le_refl 0, by positivity⟩

/-- The `finalPoints` accumulator of the correct-answer branch of
`calculateAnswerPoints` (scoring.js 32-77), before the minimum bound of line
103: base, plus streak, speed, difficulty and perfect bonuses in source
order. -/
def fpTrue (bp ts : D) (diff : String) (cc : ℕ) (perfect : Bool) : D :=
  let fp1 := if 2 ≤ cc then jsAdd bp (intToD (streakAmount bp)) else bp
  let spd := calculateSpeedBonus bp ts diff
  let fp2 := if dLt (intToD 0) spd then jsAdd fp1 spd else fp1
  let fp3 := if diff = "hard" then jsAdd fp2 (intToD (difficultyAmount bp)) else fp2
  if perfect then jsAdd fp3 (intToD (perfectAmount bp)) else fp3

/-- The bonus line items pushed by the correct-answer branch of
`calculateAnswerPoints`, in source order. -/
def bonTrue (bp ts : D) (diff : String) (cc : ℕ) (perfect : Bool) : List LineItem :=
  let bon1 : List LineItem :=
    if 2 ≤ cc then
      [⟨"streak", intToD (streakAmount bp), toString (cc + 1) ++ " in a row!"⟩]
    else []
  let spd := calculateSpeedBonus bp ts diff
  let bon2 :=
    if dLt (intToD 0) spd then bon1 ++ [(⟨"speed", spd, "Quick answer!"⟩ : LineItem)]
    else bon1
  let bon3 :=
    if diff = "hard" then
      bon2 ++ [(⟨"difficulty", intToD (difficultyAmount bp), "Hard question mastery!"⟩ : LineItem)]
    else bon2
  if perfect then
    bon3 ++ [(⟨"perfect", intToD (perfectAmount bp), "Perfect accuracy!"⟩ : LineItem)]
  else bon3

theorem calculateAnswerPoints_true_finalPoints (q : Question) (ts : D) (cc : ℕ)
    (perfect : Bool) :
    (calculateAnswerPoints q true ts cc perfect).finalPoints =
      jsMax (fpTrue (questionBasePoints q) ts q.difficulty cc perfect) (intToD 1) := rfl

theorem calculateAnswerPoints_true_bonuses (q : Question) (ts : D) (cc : ℕ)
    (perfect : Bool) :
    (calculateAnswerPoints q true ts cc perfect).bonuses =
      bonTrue (questionBasePoints q) ts q.difficulty cc perfect := rfl

theorem calculateAnswerPoints_true_basePoints (q : Question) (ts : D) (cc : ℕ)
    (perfect : Bool) :
    (calculateAnswerPoints q true ts cc perfect).basePoints = questionBasePoints q := rfl

theorem calculateAnswerPoints_true_total (q : Question) (ts : D) (cc : ℕ)
    (perfect : Bool) :
    (calculateAnswerPoints q true ts cc perfect).breakdown.total =
      jsSub (jsAdd (questionBasePoints q)
          (sumAmounts (bonTrue (questionBasePoints q) ts q.difficulty cc perfect)))
        (sumAmounts []) := rfl

theorem val_jsAdd_ite (c : Prop) [Decidable c] (x : D) (a t : ℤ)
    (hx : val x = (t:ℚ)) (ht : 0 ≤ t) (ha : 0 ≤ a) (hb : t + a ≤ 2^53) :
    val (if c then jsAdd x (intToD a) else x) = ((t + if c then a else 0 : ℤ) : ℚ) := by
  by_cases hc : c
  · rw [if_pos hc, if_pos hc]
    exact val_jsAdd_int x (intToD a) t a hx (val_intToD a) (by omega)
  · rw [if_neg hc, if_neg hc, hx]
    norm_num

theorem sumAmounts_append_one (l : List LineItem) (it : LineItem) :
    sumAmounts (l ++ [it]) = jsAdd (sumAmounts l) it.amount := by
  unfold sumAmounts
  rw [List.foldl_append]
  rfl

theorem val_sumAmounts_base (c : Prop) [Decidable c] (it : LineItem) (a : ℤ)
    (hit : it.amount = intToD a) (ha : 0 ≤ a) (hb : a ≤ 2^53) :
    val (sumAmounts (if c then [it] else [])) = ((if c then a else 0 : ℤ) : ℚ) := by
  by_cases hc : c
  · rw [if_pos hc, if_pos hc]
    show val (jsAdd (intToD 0) it.amount) = _
    rw [hit, val_jsAdd_int (intToD 0) (intToD a) 0 a (val_intToD 0) (val_intToD a) (by omega)]
    push_cast
    ring
  · rw [if_neg hc, if_neg hc]
    show val (intToD 0) = _
    rw [val_intToD]

theorem val_sumAmounts_step (c : Prop) [Decidable c] (l : List LineItem) (it : LineItem)
    (a t : ℤ) (hit : it.amount = intToD a)
    (hl : val (sumAmounts l) = (t:ℚ)) (ht : 0 ≤ t) (ha : 0 ≤ a) (hb : t + a ≤ 2^53) :
    val (sumAmounts (if c then l ++ [it] else l)) = ((t + if c then a else 0 : ℤ) : ℚ) := by
  by_cases hc : c
  · rw [if_pos hc, if_pos hc, sumAmounts_append_one, hit]
    exact val_jsAdd_int _ _ t a hl (val_intToD a) (by omega)
  · rw [if_neg hc, if_neg hc, hl]
    norm_num

theorem mapsum_base (c : Prop) [Decidable c] (it : LineItem) (a : ℤ)
    (hit : it.amount = intToD a) :
    ((if c then [it] else []).map (fun x => val x.amount)).sum =
      ((if c then a else 0 : ℤ) : ℚ) := by
  by_cases hc : c
  · rw [if_pos hc, if_pos hc]
    simp [hit, val_intToD]
  · rw [if_neg hc, if_neg hc]
    simp

theorem mapsum_step (c : Prop) [Decidable c] (l : List LineItem) (it : LineItem) (a : ℤ)
    (t : ℚ) (hit : it.amount = intToD a)
    (hl : (l.map (fun x => val x.amount)).sum = t) :
    ((if c then l ++ [it] else l).map (fun x => val x.amount)).sum =
      t + ((if c then a else 0 : ℤ) : ℚ) := by
  by_cases hc : c
  · rw [if_pos hc, if_pos hc, List.map_append, List.sum_append, hl]
    simp [hit, val_intToD]
  · rw [if_neg hc, if_neg hc, hl]
    norm_num

theorem fp_bon_val (ts : D) (diff : String) (cc : ℕ) (perfect : Bool) (B : ℕ)
    (hB1 : 1 ≤ B) (hB2 : B ≤ 2^48) (hts : 0 ≤ ts.m) (hte : -2000 ≤ ts.e) :
    ∃ S : ℤ, 0 ≤ S ∧ (B:ℤ) + S ≤ 2^53 ∧
      val (fpTrue (intToD B) ts diff cc perfect) = (((B:ℤ) + S : ℤ) : ℚ) ∧
      val (sumAmounts (bonTrue (intToD B) ts diff cc perfect)) = ((S : ℤ) : ℚ) ∧
      ((bonTrue (intToD B) ts diff cc perfect).map (fun x => val x.amount)).sum =
        ((S : ℤ) : ℚ) := by
  obtain ⟨k2, hspd, hk20, hk2b⟩ := calculateSpeedBonus_intToD B ts diff hB2 hts hte
  have hsb := streakAmount_intToD B hB2
  have hpb := perfectAmount_intToD B hB2
  obtain ⟨hdb0, hdbB⟩ := difficultyAmount_bounds B hB2
  obtain ⟨i1, hi1eq, hi10, hi1B⟩ :
      ∃ i : ℤ, (if 2 ≤ cc then ((B/2 : ℕ):ℤ) else 0) = i ∧ 0 ≤ i ∧ i ≤ (B:ℤ) := by
    by_cases h : 2 ≤ cc
    · exact ⟨((B/2 : ℕ):ℤ), by rw [if_pos h], by omega, by omega⟩
    · exact ⟨0, by rw [if_neg h], le_refl 0, by omega⟩
  obtain ⟨i2, hi2eq, hi20, hi2B⟩ :
      ∃ i : ℤ, (if dLt (intToD 0) (intToD k2) then k2 else 0) = i ∧ 0 ≤ i ∧
        i ≤ 16 * (B:ℤ) := by
    by_cases h : dLt (intToD 0) (intToD k2)
    · exact ⟨k2, by rw [if_pos h], hk20, by omega⟩
    · exact ⟨0, by rw [if_neg h], le_refl 0, by omega⟩
  obtain ⟨i3, hi3eq, hi30, hi3B⟩ :
      ∃ i : ℤ, (if diff = "hard" then difficultyAmount (intToD B) else 0) = i ∧ 0 ≤ i ∧
        i ≤ (B:ℤ) := by
    by_cases h : diff = "hard"
    · exact ⟨difficultyAmount (intToD B), by rw [if_pos h], hdb0, hdbB⟩
    · exact ⟨0, by rw [if_neg h], le_refl 0, by omega⟩
  obtain ⟨i4, hi4eq, hi40, hi4B⟩ :
      ∃ i : ℤ, (if perfect = true then ((B/2 : ℕ):ℤ) else 0) = i ∧ 0 ≤ i ∧
        i ≤ (B:ℤ) := by
    by_cases h : perfect = true
    · exact ⟨((B/2 : ℕ):ℤ), by rw [if_pos h], by omega, by omega⟩
    · exact ⟨0, by rw [if_neg h], le_refl 0, by omega⟩
  have hfp : val (fpTrue (intToD B) ts diff cc perfect) =
      (((B:ℤ) + (i1 + i2 + i3 + i4) : ℤ) : ℚ) := by
    unfold fpTrue
    simp only []
    rw [hspd, hsb, hpb]
    set F1 := if 2 ≤ cc then jsAdd (intToD (B:ℤ)) (intToD ((B/2 : ℕ):ℤ)) else intToD (B:ℤ)
      with hF1def
    set F2 := if dLt (intToD 0) (intToD k2) then jsAdd F1 (intToD k2) else F1 with hF2def
    set F3 := if diff = "hard" then jsAdd F2 (intToD (difficultyAmount (intToD (B:ℤ))))
      else F2 with hF3def
    have h1 : val F1 = (((B:ℤ) + i1 : ℤ) : ℚ) := by
      rw [hF1def,
        val_jsAdd_ite (2 ≤ cc) (intToD (B:ℤ)) ((B/2 : ℕ):ℤ) (B:ℤ) (val_intToD _)
          (by omega) (by omega) (by omega),
        hi1eq]
    have h2 : val F2 = (((B:ℤ) + i1 + i2 : ℤ) : ℚ) := by
      rw [hF2def,
        val_jsAdd_ite (dLt (intToD 0) (intToD k2)) F1 k2 ((B:ℤ) + i1) h1
          (by omega) hk20 (by omega),
        hi2eq]
    have h3 : val F3 = (((B:ℤ) + i1 + i2 + i3 : ℤ) : ℚ) := by
      rw [hF3def,
        val_jsAdd_ite (diff = "hard") F2 (difficultyAmount (intToD (B:ℤ))) ((B:ℤ) + i1 + i2)
          h2 (by omega) hdb0 (by omega),
        hi3eq]
    rw [val_jsAdd_ite (perfect = true) F3 ((B/2 : ℕ):ℤ) ((B:ℤ) + i1 + i2 + i3) h3
        (by omega) (by omega) (by omega),
      hi4eq]
    push_cast
    ring
  have hsum : val (sumAmounts (bonTrue (intToD B) ts diff cc perfect)) =
      ((i1 + i2 + i3 + i4 : ℤ) : ℚ) := by
    unfold bonTrue
    simp only []
    rw [hspd, hsb, hpb]
    set L1 := if 2 ≤ cc then
        [(⟨"streak", intToD ((B/2 : ℕ):ℤ), toString (cc + 1) ++ " in a row!"⟩ : LineItem)]
      else ([] : List LineItem) with hL1def
    set L2 := if dLt (intToD 0) (intToD k2) then
        L1 ++ [(⟨"speed", intToD k2, "Quick answer!"⟩ : LineItem)]
      else L1 with hL2def
    set L3 := if diff = "hard" then
        L2 ++ [(⟨"difficulty", intToD (difficultyAmount (intToD (B:ℤ))),
          "Hard question mastery!"⟩ : LineItem)]
      else L2 with hL3def
    have h1 : val (sumAmounts L1) = ((i1 : ℤ) : ℚ) := by
      rw [hL1def,
        val_sumAmounts_base (2 ≤ cc)
          ⟨"streak", intToD ((B/2 : ℕ):ℤ), toString (cc + 1) ++ " in a row!"⟩
          ((B/2 : ℕ):ℤ) rfl (by omega) (by omega),
        hi1eq]
    have h2 : val (sumAmounts L2) = ((i1 + i2 : ℤ) : ℚ) := by
      rw [hL2def,
        val_sumAmounts_step (dLt (intToD 0) (intToD k2)) L1
          ⟨"speed", intToD k2, "Quick answer!"⟩ k2 i1 rfl h1 hi10 hk20 (by omega),
        hi2eq]
    have h3 : val (sumAmounts L3) = ((i1 + i2 + i3 : ℤ) : ℚ) := by
      rw [hL3def,
        val_sumAmounts_step (diff = "hard") L2
          ⟨"difficulty", intToD (difficultyAmount (intToD (B:ℤ))), "Hard question mastery!"⟩
          (difficultyAmount (intToD (B:ℤ))) (i1 + i2) rfl h2 (by omega) hdb0 (by omega),
        hi3eq]
    rw [val_sumAmounts_step (perfect = true) L3
        ⟨"perfect", intToD ((B/2 : ℕ):ℤ), "Perfect accuracy!"⟩
        ((B/2 : ℕ):ℤ) (i1 + i2 + i3) rfl h3 (by omega) (by omega) (by omega),
      hi4eq]
  have hmap : ((bonTrue (intToD B) ts diff cc perfect).map (fun x => val x.amount)).sum =
      ((i1 + i2 + i3 + i4 : ℤ) : ℚ) := by
    unfold bonTrue
    simp only []
    rw [hspd, hsb, hpb]
    set L1 := if 2 ≤ cc then
        [(⟨"streak", intToD ((B/2 : ℕ):ℤ), toString (cc + 1) ++ " in a row!"⟩ : LineItem)]
      else ([] : List LineItem) with hL1def
    set L2 := if dLt (intToD 0) (intToD k2) then
        L1 ++ [(⟨"speed", intToD k2, "Quick answer!"⟩ : LineItem)]
      else L1 with hL2def
    set L3 := if diff = "hard" then
        L2 ++ [(⟨"difficulty", intToD (difficultyAmount (intToD (B:ℤ))),
          "Hard question mastery!"⟩ : LineItem)]
      else L2 with hL3def
    have h1 : (L1.map (fun x => val x.amount)).sum = ((i1 : ℤ) : ℚ) := by
      rw [hL1def,
        mapsum_base (2 ≤ cc)
          ⟨"streak", intToD ((B/2 : ℕ):ℤ), toString (cc + 1) ++ " in a row!"⟩
          ((B/2 : ℕ):ℤ) rfl,
        hi1eq]
    have h2 : (L2.map (fun x => val x.amount)).sum = ((i1 : ℤ) : ℚ) + ((i2 : ℤ) : ℚ) := by
      rw [hL2def,
        mapsum_step (dLt (intToD 0) (intToD k2)) L1
          ⟨"speed", intToD k2, "Quick answer!"⟩ k2 _ rfl h1,
        hi2eq]
    have h3 : (L3.map (fun x => val x.amount)).sum =
        ((i1 : ℤ) : ℚ) + ((i2 : ℤ) : ℚ) + ((i3 : ℤ) : ℚ) := by
      rw [hL3def,
        mapsum_step (diff = "hard") L2
          ⟨"difficulty", intToD (difficultyAmount (intToD (B:ℤ))), "Hard question mastery!"⟩
          (difficultyAmount (intToD (B:ℤ))) _ rfl h2,
        hi3eq]
    rw [mapsum_step (perfect = true) L3
        ⟨"perfect", intToD ((B/2 : ℕ):ℤ), "Perfect accuracy!"⟩
        ((B/2 : ℕ):ℤ) _ rfl h3,
      hi4eq]
    push_cast
    ring
  exact ⟨i1 + i2 + i3 + i4, by omega, by omega, hfp, hsum, hmap⟩

/-- C9 (implicit): for every correct answer whose base point value is a
positive integer `B` (in the binary64-safe range `B ≤ 2^48`) and every
nonnegative binary64 `timeSpent`, the `finalPoints` returned by
`calculateAnswerPoints` equals its own `breakdown.total`, which in turn
equals `basePoints` plus the sum of all bonus line-item amounts: every bonus
amount is a nonnegative integer, all the accumulating additions are exact in
binary64, and the `Math.max(finalPoints, 1)` floor never alters the result
because the accumulated total is at least `B ≥ 1`. -/
theorem C9_breakdown_consistency (q : Question) (ts : D) (cc : ℕ) (perfect : Bool) (B : ℕ)
    (hqB : questionBasePoints q = intToD B) (hB1 : 1 ≤ B) (hB2 : B ≤ 2^48)
    (hts : 0 ≤ ts.m) (hte : -2000 ≤ ts.e) :
    val (calculateAnswerPoints q true ts cc perfect).finalPoints =
      val (calculateAnswerPoints q true ts cc perfect).breakdown.total ∧
    val (calculateAnswerPoints q true ts cc perfect).breakdown.total =
      val (calculateAnswerPoints q true ts cc perfect).basePoints +
        ((calculateAnswerPoints q true ts cc perfect).bonuses.map
          (fun x => val x.amount)).sum := by
  obtain ⟨S, hS0, hSb, hfp, hsum, hmap⟩ := fp_bon_val ts q.difficulty cc perfect B hB1 hB2 hts hte
  have htotal : val (calculateAnswerPoints q true ts cc perfect).breakdown.total =
      (((B:ℤ) + S : ℤ) : ℚ) := by
    rw [calculateAnswerPoints_true_total, hqB]
    have h1 : val (jsAdd (intToD (B:ℤ))
        (sumAmounts (bonTrue (intToD (B:ℤ)) ts q.difficulty cc perfect))) =
        (((B:ℤ) + S : ℤ) : ℚ) :=
      val_jsAdd_int _ _ (B:ℤ) S (val_intToD _) hsum (by omega)
    have h2 : val (sumAmounts ([] : List LineItem)) = ((0:ℤ):ℚ) := by
      show val (intToD 0) = _
      rw [val_intToD]
    have h3 := val_jsSub_int _ _ ((B:ℤ) + S) 0 h1 h2 (by omega)
    rw [h3]
    norm_num
  have hfinal : val (calculateAnswerPoints q true ts cc perfect).finalPoints =
      (((B:ℤ) + S : ℤ) : ℚ) := by
    rw [calculateAnswerPoints_true_finalPoints, hqB, val_jsMax, hfp, val_intToD]
    rw [max_eq_left (by exact_mod_cast (by omega : (1:ℤ) ≤ (B:ℤ) + S))]
  refine ⟨by rw [hfinal, htotal], ?_⟩
  rw [htotal, calculateAnswerPoints_true_basePoints, calculateAnswerPoints_true_bonuses,
    hqB, val_intToD, hmap]
  push_cast
  ring

/-- C9 witness: the consistency instantiated at the medium placeholder
question (base 20), `timeSpent = 5`, `consecutiveCorrect = 2`. -/
theorem C9_breakdown_consistency_witness :
    (questionBasePoints monaLisaQuestion = intToD (20:ℕ) ∧ (1:ℕ) ≤ 20 ∧
      (20:ℕ) ≤ 2^48 ∧ 0 ≤ (intToD 5).m ∧ -2000 ≤ (intToD 5).e) ∧
    val (calculateAnswerPoints monaLisaQuestion true (intToD 5) 2 false).finalPoints =
      val (calculateAnswerPoints monaLisaQuestion true (intToD 5) 2 false).breakdown.total :=
  ⟨⟨by decide, by norm_num, by norm_num, by decide, by decide⟩,
   (C9_breakdown_consistency monaLisaQuestion (intToD 5) 2 false 20 (by decide) (by norm_num)
     (by norm_num) (by decide) (by decide)).1⟩

end QuizMaster
